import Mathlib

/-!
Verification of the lore normalization/indexing pipeline.

Shallow embedding of the Python sources:
  scripts/format_characters.py, scripts/format_creatures.py,
  scripts/format_realms.py, scripts/format_plots.py,
  scripts/notion_sync.py, app.py

JSON values (as produced by json.load) are modeled by the inductive `J`.
Python dicts are insertion-ordered association lists; json.load yields
unique keys, and assignment to an existing key keeps its position.
Modeling notes (corners outside the modeled input space are flagged at the
definition they concern): JSON integers are modeled exactly (`J.i : Int`),
JSON floats as exact rationals (`J.f : Rat`, no IEEE rounding/overflow);
Python's cross-type numeric equality (1 == 1.0 == True) is not reflected
by the structural equality on `J`; inputs on which the Python code raises
a TypeError/AttributeError are skipped at file granularity by every batch
driver, so they produce no entity.
-/

namespace Lore

inductive J where
  | null
  | b (v : Bool)
  | i (n : Int)
  | f (q : Rat)
  | s (v : String)
  | arr (items : List J)
  | obj (fields : List (String × J))
deriving Repr

mutual

/-- Structural equality test on `J` (Python `==` on json.load output, minus
the cross-type numeric aliasing noted at `J`). -/
def J.beq : J → J → Bool
  | J.null, t => match t with | J.null => true | _ => false
  | J.b x, t => match t with | J.b y => decide (x = y) | _ => false
  | J.i x, t => match t with | J.i y => decide (x = y) | _ => false
  | J.f x, t => match t with | J.f y => decide (x = y) | _ => false
  | J.s x, t => match t with | J.s y => decide (x = y) | _ => false
  | J.arr xs, t => match t with | J.arr ys => J.beqL xs ys | _ => false
  | J.obj xs, t => match t with | J.obj ys => J.beqF xs ys | _ => false

def J.beqL : List J → List J → Bool
  | [], [] => true
  | x :: xs, y :: ys => J.beq x y && J.beqL xs ys
  | _, _ => false

def J.beqF : List (String × J) → List (String × J) → Bool
  | [], [] => true
  | x :: xs, y :: ys => (decide (x.1 = y.1) && J.beq x.2 y.2) && J.beqF xs ys
  | _, _ => false

end

mutual

theorem J.beq_iff : ∀ (a b : J), J.beq a b = true ↔ a = b
  | J.null, t => by cases t <;> simp [J.beq]
  | J.b x, t => by cases t <;> simp [J.beq]
  | J.i x, t => by cases t <;> simp [J.beq]
  | J.f x, t => by cases t <;> simp [J.beq]
  | J.s x, t => by cases t <;> simp [J.beq]
  | J.arr xs, t => by
      cases t
      all_goals try (simp [J.beq]; done)
      case arr ys =>
        simp only [J.beq]
        rw [J.beqL_iff xs ys]
        simp
  | J.obj xs, t => by
      cases t
      all_goals try (simp [J.beq]; done)
      case obj ys =>
        simp only [J.beq]
        rw [J.beqF_iff xs ys]
        simp

theorem J.beqL_iff : ∀ (xs ys : List J), J.beqL xs ys = true ↔ xs = ys
  | [], ys => by cases ys <;> simp [J.beqL]
  | x :: xs, ys => by
      cases ys with
      | nil => simp [J.beqL]
      | cons y yt =>
          simp only [J.beqL, Bool.and_eq_true]
          rw [J.beq_iff x y, J.beqL_iff xs yt]
          simp

theorem J.beqF_iff : ∀ (xs ys : List (String × J)), J.beqF xs ys = true ↔ xs = ys
  | [], ys => by cases ys <;> simp [J.beqF]
  | x :: xs, ys => by
      cases ys with
      | nil => simp [J.beqF]
      | cons y yt =>
          simp only [J.beqF, Bool.and_eq_true, decide_eq_true_eq]
          rw [J.beq_iff x.2 y.2, J.beqF_iff xs yt]
          simp [Prod.ext_iff]

end

instance : DecidableEq J := fun a b =>
  decidable_of_iff (J.beq a b = true) (J.beq_iff a b)

/-! ### Association-list primitives (Python dict semantics) -/

/-- `d.get(k)` on an insertion-ordered dict, first matching key. -/
def alget {α β : Type} [DecidableEq α] : List (α × β) → α → Option β
  | [], _ => none
  | p :: rest, k => if p.1 = k then some p.2 else alget rest k

/-- `d[k] = v` on an insertion-ordered dict: an existing key keeps its
position, a new key is appended. -/
def setK {α β : Type} [DecidableEq α] : List (α × β) → α → β → List (α × β)
  | [], k, v => [(k, v)]
  | p :: rest, k, v => if p.1 = k then (k, v) :: rest else p :: setK rest k v

/-- Field lookup on a `J.obj` value (for stating facts about outputs). -/
def jget (v : J) (k : String) : Option J :=
  match v with
  | J.obj l => alget l k
  | _ => none

/-- `d.get(k)` as the Python expression level sees it: a stored JSON null is
Python `None`, indistinguishable from a missing key. -/
def pyGet (fields : List (String × J)) (k : String) : Option J :=
  match alget fields k with
  | some J.null => none
  | r => r

/-- `k in d` (key containment, unlike `pyGet` not collapsing null). -/
def hasKey (fields : List (String × J)) (k : String) : Bool :=
  (alget fields k).isSome

/-- Python truthiness of a json.load value. -/
def truthy : J → Bool
  | J.null => false
  | J.b v => v
  | J.i n => decide (n ≠ 0)
  | J.f q => decide (q ≠ 0)
  | J.s v => decide (v ≠ "")
  | J.arr l => decide (l ≠ [])
  | J.obj l => decide (l ≠ [])

/-- Python `a or b` over optional JSON values (`none` is Python `None`). -/
def orJ (a b : Option J) : Option J :=
  match a with
  | some v => if truthy v then some v else b
  | none => b

/-- Python `a or d` where `a` is an optional string and `d` a default. -/
def pyOrStr (a : Option String) (d : String) : String :=
  match a with
  | some t => if t = "" then d else t
  | none => d

/-! ### List/character primitives -/

/-- `pat` is an initial segment of `l`. -/
def leadsTo {α : Type} [DecidableEq α] : List α → List α → Bool
  | [], _ => true
  | _ :: _, [] => false
  | a :: l1, b :: l2 => decide (a = b) && leadsTo l1 l2

/-- `needle` occurs contiguously in `hay` (Python `needle in hay` on str). -/
def hasRun {α : Type} [DecidableEq α] (needle : List α) : List α → Bool
  | [] => decide (needle = [])
  | c :: rest => leadsTo needle (c :: rest) || hasRun needle rest

/-- Python substring test `needle in hay`. -/
def strHas (hay needle : String) : Bool := hasRun needle.data hay.data

/-- Python `s.startswith(pat)`. -/
def strStarts (s pat : String) : Bool := leadsTo pat.data s.data

/-- Characters matched by Python's `\s` in unicode mode (also the set
stripped by `str.strip()` on the strings this pipeline produces). -/
def isPySpace (c : Char) : Bool :=
  c ∈ [' ', '\t', '\n', '\r', '\x0b', '\x0c',
       '\x1c', '\x1d', '\x1e', '\x1f', '\x85', '\xa0',
       ' ', ' ', ' ', ' ', ' ', ' ', ' ',
       ' ', ' ', ' ', ' ', ' ',
       ' ', ' ', ' ', ' ', '　']

/-- ASCII lowercasing, `str.lower()` (non-ASCII lowercasing is not modeled;
no verified claim feeds non-ASCII uppercase through it). -/
def pyLower (s : String) : String := String.mk (s.data.map Char.toLower)

/-- `str.strip()`. -/
def pyStrip (s : String) : String :=
  String.mk (((s.data.dropWhile isPySpace).reverse.dropWhile isPySpace).reverse)

/-- `str.title()` for ASCII: uppercase an alphabetic character not preceded
by an alphabetic character, lowercase the rest. -/
def pyTitleAux : List Char → Bool → List Char
  | [], _ => []
  | c :: rest, prevAlpha =>
      let c2 := if c.isAlpha then (if prevAlpha then c.toLower else c.toUpper) else c
      c2 :: pyTitleAux rest c.isAlpha

def pyTitle (s : String) : String := String.mk (pyTitleAux s.data false)

/-- `str.replace(pat, rep)` (leftmost, non-overlapping). Fuel form so the
kernel can evaluate it; fuel `= length of the subject` suffices since every
match consumes at least one character (the table never uses an empty
pattern). -/
def replaceFuel (pat rep : List Char) : Nat → List Char → List Char
  | _, [] => []
  | 0, l => l
  | fuel + 1, c :: rest =>
      if pat ≠ [] ∧ leadsTo pat (c :: rest) = true then
        rep ++ replaceFuel pat rep fuel ((c :: rest).drop pat.length)
      else
        c :: replaceFuel pat rep fuel rest

def replaceAll (pat rep l : List Char) : List Char := replaceFuel pat rep l.length l

/-- Split into maximal runs of non-whitespace (the tokens of
`re.sub(r"\s+", " ", s).strip()`). -/
def splitWsAux : List Char → List (List Char)
  | [] => [[]]
  | c :: rest =>
      match splitWsAux rest with
      | [] => []
      | t :: ts => if isPySpace c then [] :: t :: ts else (c :: t) :: ts

def wsTokens (l : List Char) : List (List Char) := (splitWsAux l).filter (· ≠ [])

def joinTokens : List (List Char) → List Char
  | [] => []
  | [t] => t
  | t :: ts => t ++ ' ' :: joinTokens ts

/-- Collapse each maximal run of characters satisfying `p` into the single
character `r` (semantics of `re.sub("[class]+", r, s)`). -/
def collapseRunsAux (p : Char → Bool) (r : Char) : List Char → Bool → List Char
  | [], _ => []
  | c :: rest, inRun =>
      if p c then
        if inRun then collapseRunsAux p r rest true
        else r :: collapseRunsAux p r rest true
      else c :: collapseRunsAux p r rest false

/-! ### Numbers rendered by `str()` -/

def digitChar (n : Nat) : Char := Char.ofNat (48 + n)

def natStrAux : Nat → Nat → List Char
  | 0, _ => []
  | fuel + 1, n => if n < 10 then [digitChar n] else natStrAux fuel (n / 10) ++ [digitChar (n % 10)]

def natStr (n : Nat) : String := String.mk (natStrAux (n + 1) n)

def intStr (n : Int) : String :=
  if n < 0 then "-" ++ natStr (-n).toNat else natStr n.toNat

/-- Rendering of a Python float; the shortest-roundtrip decimal repr of
IEEE doubles is not modeled and no verified claim applies `str()` to a
float. -/
def ratStr (q : Rat) : String := intStr q.num ++ "/" ++ natStr q.den

/-! ### `str(value)` / `repr(value)` on json.load output -/

mutual

/-- `repr(value)` (element position inside containers). Python's
quote-escaping inside string reprs is not modeled. -/
def pyRepr : J → String
  | J.null => "None"
  | J.b v => if v then "True" else "False"
  | J.i n => intStr n
  | J.f q => ratStr q
  | J.s v => "\u0027" ++ v ++ "\u0027"
  | J.arr l => "[" ++ pyReprList l ++ "]"
  | J.obj l => "\x7b" ++ pyReprFields l ++ "\x7d"

def pyReprList : List J → String
  | [] => ""
  | [x] => pyRepr x
  | x :: xs => pyRepr x ++ ", " ++ pyReprList xs

def pyReprFields : List (String × J) → String
  | [] => ""
  | [x] => "\u0027" ++ x.1 ++ "\u0027: " ++ pyRepr x.2
  | x :: xs => "\u0027" ++ x.1 ++ "\u0027: " ++ pyRepr x.2 ++ ", " ++ pyReprFields xs

end

/-- `str(value)`. -/
def pyStr (v : J) : String :=
  match v with
  | J.s t => t
  | _ => pyRepr v

/-! ### format_characters.py: text cleanup -/

/-- The literal replacement table of `clean_text`, in source (insertion)
order. The values of the dash entries are the mojibake three-character
sequences present verbatim in the source file. -/
def REPLACEMENTS : List (String × String) :=
  [("\uFFFD", ""),
   ("\uFFFD?", ""),
   ("\uFFFD\"", "\""),
   ("\uFFFD\u0027", "\u0027"),
   ("\u2014", "\u00E2\u20AC\u201D"),
   ("\u2013", "\u00E2\u20AC\u201C"),
   ("\u2019", "\u0027"),
   ("\u2018", "\u0027"),
   ("\u201C", "\""),
   ("\u201D", "\""),
   ("\u00A0", " "),
   ("\x1b", ""),
   ("\u00EF\u00BF\u00BD?\"", "\""),
   ("\u00EF\u00BF\u00BD?", ""),
   ("\u00EF\u00BF\u00BD\"", "\""),
   ("\u00EF\u00BF\u00BD\u0027", "\u0027"),
   ("\r\n", "\n")]

def applyReplacements (l : List Char) : List Char :=
  REPLACEMENTS.foldl (fun acc kv => replaceAll kv.1.data kv.2.data acc) l

/-- The string pipeline of `clean_text` after the `None` check: replacement
table, then `RE_WS.sub(" ", value).strip()` (whitespace runs collapsed to
one space, trimmed). -/
def cleanStr (s : String) : String :=
  String.mk (joinTokens (wsTokens (applyReplacements s.data)))

/-- `clean_text(value)`: `None` passes through (a stored JSON null is
Python `None`), a non-string value is first rendered with `str()`. -/
def clean_text : Option J → Option String
  | none => none
  | some J.null => none
  | some v => some (cleanStr (pyStr v))

/-- The iteration `for v in values` of `clean_list`: a list yields its
elements, a string its characters, a dict its keys. A non-iterable value
raises TypeError in the source, the batch driver then skips the whole
file; such inputs are outside the modeled space (modeled as `none`). -/
def iterElems : J → Option (List J)
  | J.arr l => some l
  | J.s v => some (v.data.map fun c => J.s (String.mk [c]))
  | J.obj l => some (l.map fun p => J.s p.1)
  | _ => none

/-- `clean_list(values)`: maps `clean_text`, keeps truthy results, returns
`None` for an empty result. -/
def clean_list (values : Option J) : Option (List String) :=
  match values with
  | none => none
  | some J.null => none
  | some v =>
      match iterElems v with
      | none => none
      | some elems =>
          let r := elems.filterMap fun x =>
            match clean_text (some x) with
            | some t => if t = "" then none else some t
            | none => none
          if r = [] then none else some r

/-- `canonicalize_key(k)`: lowercase, collapse runs outside `[a-z0-9]` to
`_`, strip `_` from both ends. -/
def canonicalize_key (k : String) : String :=
  let collapsed := collapseRunsAux
    (fun c => !(('a' ≤ c && c ≤ 'z') || ('0' ≤ c && c ≤ '9'))) '_'
    (pyLower k).data false
  String.mk (((collapsed.dropWhile (· = '_')).reverse.dropWhile (· = '_')).reverse)

/-- `as_list(value)`. -/
def as_list : Option J → List J
  | none => []
  | some J.null => []
  | some (J.arr l) => l
  | some v => [v]

/-- The kept character class `[a-z0-9_]` of the id regex. -/
def goodIdChar (c : Char) : Bool :=
  ('a' ≤ c && c ≤ 'z') || ('0' ≤ c && c ≤ '9') || c = '_'

/-- The id derivation `re.sub(r"[^a-z0-9_]+", "_", s)` (applied to the
already-lowercased name). Underscores are inside the kept class, so they
are not collapsed. -/
def slug (s : String) : String :=
  String.mk (collapseRunsAux (fun c => !goodIdChar c) '_' s.data false)

/-- One synonym table (one vocabulary axis), string → string. -/
abbrev SynSection := List (String × String)

/-- The per-category synonyms dict (axis name → table). -/
abbrev SynTable := List (String × SynSection)

/-- `SYNONYMS.get(axis, {})`. -/
def synSection (syn : SynTable) (axis : String) : SynSection :=
  match alget syn axis with
  | some t => t
  | none => []

/-- `canonicalize_with_synonyms(value, mapping, title_case)`. -/
def canonicalize_with_synonyms (value : String) (mapping : SynSection)
    (title_case : Bool) : String :=
  let key := pyLower (pyStrip value)
  match alget mapping key with
  | some v => v
  | none => if title_case then pyTitle value else value

/-! ### format_characters.py: character normalization -/

/-- `s.replace(pat, rep)`. -/
def strReplace (s pat rep : String) : String :=
  String.mk (replaceAll pat.data rep.data s.data)

/-- Render an `Optional[str]` as a JSON value (`None` → null). -/
def optToJ : Option String → J
  | some t => J.s t
  | none => J.null

/-- Render an `Optional[List[str]]` as a JSON value (`None` → null). -/
def olistToJ : Option (List String) → J
  | some l => J.arr (l.map J.s)
  | none => J.null

/-- f-string rendering of an `Optional[str]` (`f"{None}"` is `"None"`). -/
def fstr : Option String → String
  | some t => t
  | none => "None"

/-- `context.get(k)` stored directly as an output value (missing → null). -/
def rawGet (context : List (String × J)) (k : String) : J :=
  match alget context k with
  | some v => v
  | none => J.null

/-- The string elements of a value this code stored under a list-valued
key (always `None` or a list of cleaned strings). -/
def listOfJStrs : Option J → List String
  | some (J.arr l) => l.filterMap fun x => match x with | J.s t => some t | _ => none
  | _ => []

/-- `out.setdefault("notes", []).append(note)`: `"notes"` is only ever
created by this helper, so it always holds a list. -/
def appendNote (out : List (String × J)) (note : String) : List (String × J) :=
  match alget out "notes" with
  | some (J.arr l) => setK out "notes" (J.arr (l ++ [J.s note]))
  | some _ => out
  | none => out ++ [("notes", J.arr [J.s note])]

/-- `if "notes" in out: out["notes"] = clean_list(out["notes"])`. -/
def recleanNotes (out : List (String × J)) : List (String × J) :=
  match alget out "notes" with
  | some v => setK out "notes" (olistToJ (clean_list (some v)))
  | none => out

def APPEARANCE_KEYS : List String :=
  ["height", "build", "skin", "hair", "eyes", "wings", "attire",
   "distinctive_features", "marks"]

/-- `normalize_appearance(raw)`. A non-dict argument raises in the source
(the driver skips the file); modeled as the empty dict. -/
def normalize_appearance (raw : Option J) : J :=
  match raw with
  | some (J.obj l) =>
      let out := l.foldl (fun out kv =>
        let kcanon := canonicalize_key kv.1
        if (APPEARANCE_KEYS.map canonicalize_key).contains kcanon then
          setK out kcanon (optToJ (clean_text (some kv.2)))
        else
          appendNote out
            (fstr (clean_text (some (J.s kv.1))) ++ ": " ++ fstr (clean_text (some kv.2)))) []
      J.obj (recleanNotes out)
  | _ => J.obj []

/-- `normalize_personality(raw)`. A non-dict argument raises in the source
(the driver skips the file); modeled as the empty dict. -/
def normalize_personality (raw : Option J) : J :=
  match raw with
  | some (J.obj l) =>
      let step := fun (st : List (String × J) × List String) (kv : String × J) =>
        let out := st.1
        let traits_extra := st.2
        let kcanon := canonicalize_key kv.1
        if kcanon = "traits" ∨ kcanon = "flaws" ∨ kcanon = "virtues" then
          (setK out kcanon (olistToJ (clean_list (some (J.arr (as_list (some kv.2)))))),
           traits_extra)
        else if kcanon = "temperament" then
          (setK out "temperament" (optToJ (clean_text (some kv.2))), traits_extra)
        else if kcanon = "strengths" ∨ kcanon = "weaknesses" then
          let mapped := if kcanon = "strengths" then "virtues" else "flaws"
          let merged := listOfJStrs (alget out mapped) ++
            (match clean_list (some (J.arr (as_list (some kv.2)))) with
             | some l2 => l2
             | none => [])
          (setK out mapped (J.arr (merged.map J.s)), traits_extra)
        else
          match clean_text (some kv.2) with
          | some t =>
              if t = "" then (out, traits_extra)
              else
                let label := strReplace (fstr (clean_text (some (J.s kv.1)))) "_" " "
                (out, traits_extra ++ [label ++ ": " ++ t])
          | none => (out, traits_extra)
      let st := l.foldl step ([], [])
      if st.2 = [] then J.obj st.1
      else J.obj (setK st.1 "traits"
        (J.arr ((listOfJStrs (alget st.1 "traits") ++ st.2).map J.s)))
  | _ => J.obj []

def LINEAGE_FIELDS : List String :=
  ["father", "mother", "siblings", "consorts", "essence", "type", "origin",
   "status", "role"]

/-- `normalize_lineage(raw)`. A non-dict argument raises in the source
(the driver skips the file); modeled as the empty dict. -/
def normalize_lineage (raw : Option J) : J :=
  match raw with
  | some (J.obj l) =>
      let out := l.foldl (fun out kv =>
        let kcanon := canonicalize_key kv.1
        if LINEAGE_FIELDS.contains kcanon then
          match kv.2 with
          | J.arr l2 => setK out kcanon (olistToJ (clean_list (some (J.arr l2))))
          | v => setK out kcanon (optToJ (clean_text (some v)))
        else
          match kv.2 with
          | J.obj l2 =>
              if kcanon = "primordial" then
                setK out "primordial"
                  (J.obj (l2.map fun p => (p.1, optToJ (clean_text (some p.2)))))
              else
                appendNote out
                  (fstr (clean_text (some (J.s kv.1))) ++ ": " ++
                   fstr (clean_text (some kv.2)))
          | _ =>
              appendNote out
                (fstr (clean_text (some (J.s kv.1))) ++ ": " ++
                 fstr (clean_text (some kv.2)))) []
      J.obj (recleanNotes out)
  | _ => J.obj []

/-- `normalize_prophecy(raw)`. A non-dict, non-null argument reaches
`k in raw` (a substring test on strings) but no `.get` unless it matches;
strings containing the literal key names raise in the source and are
outside the modeled space; modeled as the empty dict. -/
def normalize_prophecy (raw : Option J) : J :=
  match raw with
  | some (J.obj l) =>
      let out := ["name", "description", "lore_fragment"].foldl (fun out k =>
        if hasKey l k then setK out k (optToJ (clean_text (pyGet l k))) else out) []
      if hasKey l "powers_foretold" then
        J.obj (setK out "powers_foretold"
          (olistToJ (clean_list (some (J.arr (as_list (pyGet l "powers_foretold")))))))
      else J.obj out
  | _ => J.obj []

/-- `normalize_abilities(raw)` (the caller passes `entry.get("abilities") or {}`). -/
def normalize_abilities (raw : J) : List J :=
  match raw with
  | J.obj l =>
      l.map fun p =>
        match p.2 with
        | J.obj body =>
            J.obj [("name", optToJ (clean_text (some (J.s p.1)))),
                   ("description", optToJ (clean_text (pyGet body "description"))),
                   ("application", optToJ (clean_text (pyGet body "application")))]
        | v =>
            J.obj [("name", optToJ (clean_text (some (J.s p.1)))),
                   ("description", optToJ (clean_text (some v)))]
  | J.arr l =>
      l.map fun item =>
        match item with
        | J.obj body =>
            if hasKey body "name" then
              J.obj [("name", optToJ (clean_text (pyGet body "name"))),
                     ("description", optToJ (clean_text (pyGet body "description"))),
                     ("application", optToJ (clean_text (pyGet body "application")))]
            else J.obj [("name", optToJ (clean_text (some (J.s (pyStr item)))))]
        | v => J.obj [("name", optToJ (clean_text (some (J.s (pyStr v)))))]
  | _ => []

/-- Built-in defaults of `format_characters.SYNONYMS`. -/
def SYNONYMS_characters : SynTable :=
  [("species",
    [("high fae", "Fae"), ("fae", "Fae"), ("faerie", "Fae"),
     ("dryads", "Dryad"), ("dryad", "Dryad"),
     ("dragon", "Dragon"), ("dragons", "Dragon"), ("dragonkin", "Dragon"),
     ("human", "Human"), ("mortal", "Human"), ("mortals", "Human")]),
   ("realm",
    [("elarion", "Elarion"), ("the abyss", "Abyss"), ("abyss", "Abyss"),
     ("dreaming realm", "Dreaming Realm"), ("dreamweave", "Dreaming Realm"),
     ("dream", "Dreaming Realm")]),
   ("court",
    [("northern fae courts", "Northern Court"), ("northern court", "Northern Court"),
     ("southern court", "Southern Court"), ("shadow court", "Shadow Court")])]

def recognizedCharacter : List String :=
  ["name", "title", "titles", "species", "gender", "age", "realm", "court",
   "affiliations", "domain", "domains", "role_in_cosmic_order", "role",
   "appearance", "personality", "lineage", "prophecy", "abilities",
   "relationships"]

/-- `normalize_character(entry, context)`; `syn` is the module-level
`SYNONYMS` of format_characters.py in effect at call time. -/
def normalize_character (syn : SynTable) (entry context : List (String × J)) : J :=
  let name := pyOrStr (clean_text (pyGet entry "name")) "Unknown"
  let title_val := orJ (pyGet entry "title") (pyGet entry "titles")
  let titles : List String :=
    match title_val with
    | some (J.arr l) =>
        match clean_list (some (J.arr l)) with
        | some r => r
        | none => []
    | some v => if truthy v then [cleanStr (pyStr v)] else []
    | none => []
  let domains :=
    match clean_list (orJ (pyGet entry "domain") (pyGet entry "domains")) with
    | some l => l
    | none => []
  let role := clean_text (orJ (pyGet entry "role_in_cosmic_order") (pyGet entry "role"))
  let species :=
    match clean_text (pyGet entry "species") with
    | some t =>
        some (if t = "" then t
              else canonicalize_with_synonyms t (synSection syn "species") false)
    | none => none
  let realm :=
    match clean_text (orJ (pyGet entry "realm") (pyGet context "realm")) with
    | some t =>
        some (if t = "" then t
              else canonicalize_with_synonyms t (synSection syn "realm") true)
    | none => none
  let court :=
    match clean_text (orJ (pyGet entry "court") (pyGet context "court")) with
    | some t =>
        some (if t = "" then t
              else canonicalize_with_synonyms t (synSection syn "court") true)
    | none => none
  let abilitiesArg : J :=
    match orJ (pyGet entry "abilities") (some (J.obj [])) with
    | some v => v
    | none => J.obj []
  let out0 : List (String × J) :=
    [("id", J.s (slug (pyLower name))),
     ("name", J.s name),
     ("titles", J.arr (titles.map J.s)),
     ("species", optToJ species),
     ("gender", optToJ (clean_text (pyGet entry "gender"))),
     ("age", optToJ (clean_text (pyGet entry "age"))),
     ("realm", optToJ realm),
     ("court", optToJ court),
     ("affiliations", olistToJ (clean_list (pyGet entry "affiliations"))),
     ("domains", J.arr (domains.map J.s)),
     ("role", optToJ role),
     ("appearance", normalize_appearance (pyGet entry "appearance")),
     ("personality", normalize_personality (pyGet entry "personality")),
     ("lineage", normalize_lineage (pyGet entry "lineage")),
     ("prophecy", normalize_prophecy (pyGet entry "prophecy")),
     ("abilities", J.arr (normalize_abilities abilitiesArg)),
     ("relationships", J.obj []),
     ("notes", J.null),
     ("source", J.obj [("file", rawGet context "file"),
                       ("category", rawGet context "category"),
                       ("group", rawGet context "group")])]
  let relVal : J :=
    match orJ (pyGet entry "relationships") (some (J.obj [])) with
    | some v => v
    | none => J.obj []
  let rels0 : List (String × J) :=
    match relVal with
    | J.obj l =>
        l.foldl (fun r p => setK r (cleanStr p.1) (optToJ (clean_text (some p.2)))) []
    | _ => []
  let rels1 : List (String × J) :=
    entry.foldl (fun r p =>
      if strStarts (pyLower p.1) "relationship_" then
        setK r (strReplace (cleanStr (String.mk (p.1.data.drop 12))) "_" " ")
          (optToJ (clean_text (some p.2)))
      else r) rels0
  let out1 := if rels1 = [] then out0 else setK out0 "relationships" (J.obj rels1)
  let notes : List String :=
    entry.foldl (fun ns p =>
      if recognizedCharacter.contains p.1 then ns
      else
        match p.2 with
        | J.obj _ => ns
        | J.arr _ => ns
        | v =>
            match clean_text (some v) with
            | some t => if t = "" then ns else ns ++ [p.1 ++ ": " ++ t]
            | none => ns) []
  let out2 := setK out1 "notes" (olistToJ (clean_list (some (J.arr (notes.map J.s)))))
  J.obj out2

/-! ### format_characters.py: synonym loading, module-level tables -/

/-- `load_synonyms(path)`: deep-merge an external synonyms JSON document
onto `defaults`, the value of the module-level `format_characters.SYNONYMS`
at call time. `ext = none` models a missing `--mappings` path, a
nonexistent file, or a JSON parse error (all return the copied defaults);
a non-dict document raises inside the `try` before touching the copy and
is also returned unchanged. Section names and incoming keys are folded to
lowercase; values go through `str()`. -/
def synMergeStep (merged : SynTable) : String × J → SynTable
  | (section_, J.obj m) =>
      setK merged (pyLower section_)
        (m.foldl (fun t kv => setK t (pyLower kv.1) (pyStr kv.2))
          (match alget merged (pyLower section_) with
           | some t => t
           | none => []))
  | _ => merged

def load_synonyms (defaults : SynTable) (ext : Option J) : SynTable :=
  match ext with
  | some (J.obj sections) => sections.foldl synMergeStep defaults
  | _ => defaults

/-- Built-in defaults of `format_creatures.SYNONYMS`. -/
def SYNONYMS_creatures : SynTable :=
  [("type",
    [("ethereal beings", "Ethereal"), ("undead warriors", "Undead"),
     ("serpentine creatures", "Drake"), ("predatory beasts", "Beast"),
     ("tree-like guardians", "Treant")]),
   ("location",
    [("northern courts", "Northern Courts"), ("wraithwood", "Wraithwood Forest"),
     ("the abyss", "Abyss"), ("abyss", "Abyss")]),
   ("region",
    [("northern", "Northern Region"), ("wraithwood", "Wraithwood"),
     ("abyss", "Abyss"), ("elarion", "Elarion")]),
   ("realm",
    [("elarion", "Elarion"), ("elysion", "Elysion"), ("nythralkar", "Nythralkar"),
     ("ignisyr", "Ignisyr"), ("dreaming realm", "Dreaming Realm"),
     ("abyss", "Abyss")])]

/-- Built-in defaults of `format_realms.SYNONYMS`. -/
def SYNONYMS_realms : SynTable :=
  [("name",
    [("elarion", "Elarion"), ("the abyss", "Abyss"), ("abyss", "Abyss"),
     ("ignisyr", "Ignisyr"), ("elysion", "Elysion")])]

/-- The module-level `SYNONYMS` globals of the three formatter modules.
`format_creatures`/`format_realms` import `set_synonyms` from
`format_characters`, whose `global SYNONYMS` rebinds only the
`format_characters` module attribute; the creature and realm normalizers
read their own modules' `SYNONYMS`, which nothing ever rebinds. -/
structure Modules where
  charSyn : SynTable
  creatureSyn : SynTable
  realmSyn : SynTable

def initialModules : Modules :=
  { charSyn := SYNONYMS_characters,
    creatureSyn := SYNONYMS_creatures,
    realmSyn := SYNONYMS_realms }

/-- `set_synonyms(synonyms)` (defined in format_characters.py). -/
def set_synonyms (st : Modules) (syn : SynTable) : Modules :=
  { st with charSyn := syn }

/-- The synonyms handling of `format_creatures.main`:
`synonyms = load_synonyms(Path(args.mappings)) if args.mappings else SYNONYMS`
(this `SYNONYMS` being the creature-module table), then
`set_synonyms(synonyms)`. `mappings = none` models a run without
`--mappings`; `some ext` a run with it, `ext` the parsed override file. -/
def creatures_main_synonyms (st : Modules) (mappings : Option (Option J)) : Modules :=
  match mappings with
  | some ext => set_synonyms st (load_synonyms st.charSyn ext)
  | none => set_synonyms st st.creatureSyn

/-- A Python loop writing `out[key(x)] = w` for the items where the body
produces a value, skipping the rest. -/
def condFold {γ : Type} (key : γ → String) (g : γ → Option J) (l : List γ)
    (acc : List (String × J)) : List (String × J) :=
  l.foldl (fun acc x =>
    match g x with
    | some w => setK acc (key x) w
    | none => acc) acc

/-! ### format_creatures.py: creature normalization -/

def optTruthy (o : Option String) : Bool :=
  match o with
  | some t => t ≠ ""
  | none => false

/-- First `(needle, value)` of `tbl` with `needle in target`, in table
iteration order (the region/realm derivation loops). -/
def firstNeedleMatch (tbl : SynSection) (target : String) : Option String :=
  match tbl.find? (fun kv => strHas target kv.1) with
  | some kv => some kv.2
  | none => none

def recognizedCreature : List String :=
  ["type", "kind", "species", "location", "habitat", "description",
   "abilities", "powers", "danger_level", "threat", "danger"]

/-- The body of the attributes loop of `normalize_creature`: a recognized
key is skipped; a dict/list value is kept verbatim; a scalar is kept when
its cleaned text is truthy. -/
def creatureAttrStep (kv : String × J) : Option J :=
  if recognizedCreature.contains kv.1 then none
  else
    match kv.2 with
    | J.obj _ => some kv.2
    | J.arr _ => some kv.2
    | v =>
        match clean_text (some v) with
        | some t => if t = "" then none else some (J.s t)
        | none => none

/-- The `attributes` dict collected by `normalize_creature`. -/
def creatureAttributes (raw : List (String × J)) : List (String × J) :=
  condFold Prod.fst creatureAttrStep raw []

/-- `normalize_creature(name, raw, context)`; `syn` is the module-level
`format_creatures.SYNONYMS` (never rebound, see `Modules`). -/
def normalize_creature (syn : SynTable) (name : J) (raw context : List (String × J)) : J :=
  let display := pyOrStr (clean_text (some name)) "Unknown"
  let kind :=
    match clean_text (orJ (pyGet raw "type") (orJ (pyGet raw "kind") (pyGet raw "species"))) with
    | some t =>
        some (if t = "" then t
              else canonicalize_with_synonyms t (synSection syn "type") false)
    | none => none
  let location :=
    match clean_text (orJ (pyGet raw "location")
        (orJ (pyGet raw "habitat") (pyGet context "location"))) with
    | some t =>
        some (if t = "" then t
              else canonicalize_with_synonyms t (synSection syn "location") true)
    | none => none
  let region0 : Option String :=
    match location with
    | some loc =>
        if loc = "" then none
        else firstNeedleMatch (synSection syn "region") (pyLower loc)
    | none => none
  let region : Option String :=
    if optTruthy region0 then region0
    else
      match pyGet context "group" with
      | some (J.s g) => if pyStrip g ≠ "" then some (pyStrip g) else region0
      | _ => region0
  let realm1 : Option String :=
    match clean_text (pyGet raw "realm") with
    | some t =>
        if t = "" then none
        else some (canonicalize_with_synonyms t (synSection syn "realm") true)
    | none => none
  let realm2 : Option String :=
    if optTruthy realm1 then realm1
    else
      match location with
      | some loc =>
          if loc = "" then realm1
          else
            match firstNeedleMatch (synSection syn "realm") (pyLower loc) with
            | some v => some v
            | none => realm1
      | none => realm1
  let realm3 : Option String :=
    if optTruthy realm2 then realm2
    else
      match region with
      | some r =>
          if r = "" then realm2
          else
            match firstNeedleMatch (synSection syn "realm") (pyLower r) with
            | some v => some v
            | none => realm2
      | none => realm2
  let desc := clean_text (pyGet raw "description")
  let abilities_raw := orJ (pyGet raw "abilities") (pyGet raw "powers")
  let abilities : List String :=
    match abilities_raw with
    | some (J.arr l) =>
        match clean_list (some (J.arr l)) with
        | some r => r
        | none => []
    | some v => if truthy v then [cleanStr (pyStr v)] else []
    | none => []
  let danger := clean_text (orJ (pyGet raw "danger_level")
    (orJ (pyGet raw "threat") (pyGet raw "danger")))
  let attributes : List (String × J) := creatureAttributes raw
  J.obj
    [("id", J.s (slug (pyLower display))),
     ("name", J.s display),
     ("kind", optToJ kind),
     ("location", optToJ location),
     ("region", optToJ region),
     ("realm", optToJ realm3),
     ("description", optToJ desc),
     ("abilities", J.arr (abilities.map J.s)),
     ("danger_level", optToJ danger),
     ("attributes", if attributes = [] then J.null else J.obj attributes),
     ("source", J.obj [("file", rawGet context "file"),
                       ("category", rawGet context "category"),
                       ("group", rawGet context "group")])]

/-! ### format_realms.py: realm normalization -/

def recognizedRealm : List String :=
  ["name", "description", "domains", "ruler", "sovereign", "god_king",
   "capital", "factions", "courts", "notable_locations", "landmarks"]

/-- `normalize_realm(entry, context)`; `syn` is the module-level
`format_realms.SYNONYMS` (never rebound, see `Modules`). -/
def normalize_realm (syn : SynTable) (entry context : List (String × J)) : J :=
  let name := pyOrStr (clean_text (pyGet entry "name")) "Unknown"
  let canon_name := canonicalize_with_synonyms name (synSection syn "name") true
  let desc := clean_text (pyGet entry "description")
  let domains :=
    match clean_list (pyGet entry "domains") with
    | some l => l
    | none => []
  let ruler := clean_text (orJ (pyGet entry "ruler")
    (orJ (pyGet entry "sovereign") (pyGet entry "god_king")))
  let capital := clean_text (pyGet entry "capital")
  let factions :=
    match clean_list (orJ (pyGet entry "factions") (pyGet entry "courts")) with
    | some l => l
    | none => []
  let locations :=
    match clean_list (orJ (pyGet entry "notable_locations") (pyGet entry "landmarks")) with
    | some l => l
    | none => []
  let st := entry.foldl (fun (st : List String × List (String × J)) kv =>
      if recognizedRealm.contains kv.1 then st
      else
        match kv.2 with
        | J.obj _ => (st.1, setK st.2 kv.1 kv.2)
        | J.arr _ => (st.1, setK st.2 kv.1 kv.2)
        | v =>
            match clean_text (some v) with
            | some t => if t = "" then st else (st.1 ++ [kv.1 ++ ": " ++ t], st.2)
            | none => st) ([], [])
  J.obj
    [("id", J.s (slug (pyLower canon_name))),
     ("name", J.s canon_name),
     ("description", optToJ desc),
     ("domains", J.arr (domains.map J.s)),
     ("ruler", optToJ ruler),
     ("capital", optToJ capital),
     ("factions", if factions = [] then J.null else J.arr (factions.map J.s)),
     ("notable_locations", if locations = [] then J.null else J.arr (locations.map J.s)),
     ("notes", if st.1 = [] then J.null else J.arr (st.1.map J.s)),
     ("attributes", if st.2 = [] then J.null else J.obj st.2),
     ("source", J.obj [("file", rawGet context "file"),
                       ("category", rawGet context "category")])]

/-! ### format_plots.py: plot normalization -/

namespace Plots

/-- `clean(s)` of format_plots.py: no replacement table, only whitespace
collapse and strip. -/
def clean : Option J → Option String
  | none => none
  | some J.null => none
  | some v => some (String.mk (joinTokens (wsTokens (pyStr v).data)))

/-- `extract_summary(block)`: keys `summary`, `description`, `overview`
tried in order; a dict value is consulted one level deeper for a truthy
`description`. -/
def extract_summary (block : J) : Option String :=
  match block with
  | J.obj l =>
      let go := fun (acc : Option String) (k : String) =>
        match acc with
        | some t => some t
        | none =>
            match pyGet l k with
            | some (J.obj inner) =>
                match pyGet inner "description" with
                | some d => if truthy d then clean (some d) else none
                | none => none
            | some (J.s t) => clean (some (J.s t))
            | _ => none
      ["summary", "description", "overview"].foldl go none
  | _ => none

/-- `normalize_file(path)` of format_plots.py, over the parsed document.
Only the `{"plots": {...}}` shape yields entries. -/
def normalize_file (path : String) (data : J) : List J :=
  match data with
  | J.obj fields =>
      match alget fields "plots" with
      | some (J.obj plots) =>
          plots.map fun p =>
            let first : Option String :=
              match p.2 with
              | J.obj body => clean (pyGet body "plot_name")
              | _ => clean (some (J.s p.1))
            let nm : Option String :=
              match first with
              | some t => if t = "" then clean (some (J.s p.1)) else some t
              | none => clean (some (J.s p.1))
            J.obj [("id", J.s (slug (pyLower (pyOrStr nm "plot")))),
                   ("name", optToJ nm),
                   ("arc", J.null),
                   ("status", J.null),
                   ("summary", optToJ (extract_summary p.2)),
                   ("source", J.obj [("file", J.s path), ("category", J.s "plots")])]
      | _ => []
  | _ => []

end Plots

/-! ### format_creatures.py: danger bucketing -/

/-- `danger_bucket(text)`. Call sites pass an `Optional[str]`, so `str(text)`
is the identity here. -/
def danger_bucket (text : Option String) : String :=
  match text with
  | none => "Unknown"
  | some t0 =>
      if t0 = "" then "Unknown"
      else
        let t := pyLower t0
        if ["extreme", "mythic", "catastrophic"].any (fun k => strHas t k) then "Extreme"
        else if ["very high", "extremely high", "deadly", "lethal", "high"].any
            (fun k => strHas t k) then "High"
        else if ["moderate", "medium"].any (fun k => strHas t k) then "Moderate"
        else if ["low", "minor"].any (fun k => strHas t k) then "Low"
        else "Unknown"

/-! ### app.py: indexing and crosslinks -/

/-- A directory as `build_category_index` sees it: whether `Path.exists()`
holds, and the `sorted(glob("*.json"))` listing as (file name, parsed
document) pairs. Files whose parse or processing raises are handled inside
the per-file `try` (see `fileEntries`). -/
structure Dir where
  present : Bool
  files : List (String × J)
deriving Repr

/-- `Path.stem`: the file name minus its last extension (a leading dot does
not start an extension). -/
def stemOf (fname : String) : String :=
  let cs := fname.data
  let after := cs.reverse.takeWhile (· ≠ '.')
  if after.length = cs.length then fname
  else
    let keep := cs.take (cs.length - after.length - 1)
    if keep = [] then fname else String.mk keep

structure IndexEntry where
  name : J
  file : String
  category : String
deriving Repr, DecidableEq

/-- The `for entry in data[category]` loop body. A non-dict element raises
`AttributeError` at `entry.get`; the surrounding per-file `try` keeps the
entries appended so far and moves to the next file. -/
def entriesOfElems (category fpath : String) : List J → List IndexEntry
  | [] => []
  | J.obj fields :: rest =>
      match pyGet fields "name" with
      | some v =>
          if truthy v then ⟨v, fpath, category⟩ :: entriesOfElems category fpath rest
          else entriesOfElems category fpath rest
      | none => entriesOfElems category fpath rest
  | _ :: _ => []

/-- Per-file indexing step of `build_category_index` (`fpath` is
`str(file.relative_to(LORE_ROOT))`, `fname` the file's name). A non-dict
document raises at `.get`/iteration and the file is skipped. -/
def fileEntries (category fpath fname : String) (data : J) : List IndexEntry :=
  match data with
  | J.obj fields =>
      match alget fields category with
      | some v =>
          match iterElems v with
          | some elems => entriesOfElems category fpath elems
          | none => []
      | none =>
          let nm : J :=
            match pyGet fields "name" with
            | some v => if truthy v then v else J.s (stemOf fname)
            | none => J.s (stemOf fname)
          [⟨nm, fpath, category⟩]
  | _ => []

/-- `build_category_index(category)`:
`folder_path = formatted_path if formatted_path.exists() else (LORE_ROOT / category)`,
then `[]` if the chosen folder does not exist, else one pass over its
sorted `*.json` listing. -/
def build_category_index (category : String) (formatted rawDir : Dir) : List IndexEntry :=
  let useFormatted := formatted.present
  let folder := if useFormatted then formatted else rawDir
  if folder.present then
    folder.files.foldl (fun acc fd =>
      let relpath := category ++ (if useFormatted then "/formatted/" else "/") ++ fd.1
      acc ++ fileEntries category relpath fd.1 fd.2) []
  else []

def CATEGORIES : List String := ["characters", "creatures", "magic", "plots", "realms"]

structure CatFile where
  category : String
  file : String
deriving Repr, DecidableEq

/-- One step of the `name_to_category` accumulation:
`if n not in name_to_category: name_to_category[n] = []` then append. -/
def addPair (acc : List (J × List CatFile)) (p : J × CatFile) : List (J × List CatFile) :=
  match alget acc p.1 with
  | some l => setK acc p.1 (l ++ [p.2])
  | none => acc ++ [(p.1, [p.2])]

/-- All `(name, {category, file})` pairs over the five persisted category
indexes, in category order then index order (the write/read round-trip of
the index files is modeled as the identity). -/
def crosslinkPairs (idx : String → List IndexEntry) : List (J × CatFile) :=
  CATEGORIES.foldl (fun acc c =>
    acc ++ (idx c).map fun e => (e.name, CatFile.mk c e.file)) []

def name_to_category (idx : String → List IndexEntry) : List (J × List CatFile) :=
  (crosslinkPairs idx).foldl addPair []

/-- `crosslinks`: names with more than one occurrence. -/
def crosslinksOf (idx : String → List IndexEntry) : List (J × List CatFile) :=
  (name_to_category idx).filter fun p => p.2.length > 1

structure MasterIndex where
  categories : List (String × String × Nat)
  crosslinks : List (J × List CatFile)
deriving Repr

/-- `generate_master_index()` over a filesystem assigning each category its
(formatted, raw) directories; per-category entries are `(category,
index_file, entry_count)`. -/
def generate_master_index (fs : String → Dir × Dir) : MasterIndex :=
  let idx := fun c => build_category_index c (fs c).1 (fs c).2
  { categories := CATEGORIES.map fun c =>
      (c, "indexes/" ++ c ++ "_index.json", (idx c).length),
    crosslinks := crosslinksOf idx }

/-! ### notion_sync.py -/

/-- One entry of a per-category Field Mapping Spec:
`{remote_property_name: {"json": dotted path, "type": remote type}}`. -/
structure MapSpec where
  json : String
  ty : String
deriving Repr, DecidableEq

/-- Split on a separator character (`str.split` with a one-character
separator: `"".split(".") == [""]`). -/
def splitCharAux (sep : Char) : List Char → List (List Char)
  | [] => [[]]
  | c :: rest =>
      match splitCharAux sep rest with
      | [] => []
      | t :: ts => if c = sep then [] :: t :: ts else (c :: t) :: ts

def splitChar (sep : Char) (s : String) : List String :=
  (splitCharAux sep s.data).map String.mk

/-- `get_by_path(obj, path)`: walk the dotted path; a missing key, a stored
null (Python `None`) and a non-dict intermediate all yield `None`. -/
def get_by_path (root : J) (path : String) : Option J :=
  (splitChar '.' path).foldl (fun cur part =>
    match cur with
    | some (J.obj fields) => pyGet fields part
    | _ => none) (some root)

/-- The recursion of `set_by_path`: an intermediate that is missing or not
a dict is replaced by `{}`. -/
def setPathGo : List String → List (String × J) → J → List (String × J)
  | [], cur, _ => cur
  | [last], cur, value => setK cur last value
  | p :: q :: rest, cur, value =>
      let sub :=
        match alget cur p with
        | some (J.obj l) => l
        | _ => []
      setK cur p (J.obj (setPathGo (q :: rest) sub value))

def set_by_path (obj : List (String × J)) (path : String) (value : J) : List (String × J) :=
  setPathGo (splitChar '.' path) obj value

def digitsToNat (l : List Char) : Nat :=
  l.foldl (fun a c => a * 10 + (c.toNat - 48)) 0

def pow10 (e : Int) : Rat :=
  if 0 ≤ e then ((10 : Rat) ^ e.toNat) else 1 / ((10 : Rat) ^ (-e).toNat)

/-- The float literals accepted by `float(str)`: surrounding whitespace, an
optional sign, digits with an optional fractional part and optional
exponent, valued exactly. CPython additionally accepts underscore digit
grouping and inf/nan spellings, and rounds to an IEEE double (overflowing
past ~1.8e308); those inputs are outside the modeled space. -/
def parseFloatLit (t : String) : Option Rat :=
  let cs := ((t.data.dropWhile isPySpace).reverse.dropWhile isPySpace).reverse
  let sgn : Rat := match cs with
    | '-' :: _ => -1
    | _ => 1
  let cs1 := match cs with
    | '+' :: rest => rest
    | '-' :: rest => rest
    | _ => cs
  let intPart := cs1.takeWhile Char.isDigit
  let cs2 := cs1.drop intPart.length
  let hadDot := match cs2 with
    | '.' :: _ => true
    | _ => false
  let cs3 := if hadDot then cs2.drop 1 else cs2
  let fracPart := if hadDot then cs3.takeWhile Char.isDigit else []
  let cs4 := if hadDot then cs3.drop fracPart.length else cs3
  if intPart = [] ∧ fracPart = [] then none
  else
    let mant : Rat := sgn * ((digitsToNat intPart : Rat) +
      (digitsToNat fracPart : Rat) / ((10 : Rat) ^ fracPart.length))
    match cs4 with
    | [] => some mant
    | e :: rest =>
        if e = 'e' ∨ e = 'E' then
          let esgn : Int := match rest with
            | '-' :: _ => -1
            | _ => 1
          let rest1 := match rest with
            | '+' :: r => r
            | '-' :: r => r
            | _ => rest
          let eDigits := rest1.takeWhile Char.isDigit
          if eDigits = [] ∨ rest1.drop eDigits.length ≠ [] then none
          else some (mant * pow10 (esgn * (digitsToNat eDigits : Int)))
        else none

/-- Python `float(value)` on a json.load value, `none` on the inputs where
it raises (caught by `to_notion_prop`). -/
def pyFloat : J → Option Rat
  | J.i n => some (n : Rat)
  | J.f q => some q
  | J.b v => some (if v then 1 else 0)
  | J.s t => parseFloatLit t
  | _ => none

/-- `to_notion_prop(prop_type, value)`: `None` stays unset; each declared
type wraps the value; a failed numeric coercion yields `{"number": None}`. -/
def to_notion_prop (ty : String) (value : Option J) : Option J :=
  match value with
  | none => none
  | some v =>
      if ty = "title" then
        some (J.obj [("title", J.arr [J.obj [("text", J.obj [("content", J.s (pyStr v))])]])])
      else if ty = "rich_text" then
        some (J.obj [("rich_text", J.arr [J.obj [("text", J.obj [("content", J.s (pyStr v))])]])])
      else if ty = "select" then
        some (J.obj [("select", J.obj [("name", J.s (pyStr v))])])
      else if ty = "multi_select" then
        match v with
        | J.arr l =>
            some (J.obj [("multi_select", J.arr (l.filterMap fun x =>
              match x with
              | J.null => none
              | y => some (J.obj [("name", J.s (pyStr y))])))])
        | y => some (J.obj [("multi_select", J.arr [J.obj [("name", J.s (pyStr y))]])])
      else if ty = "number" then
        match pyFloat v with
        | some q => some (J.obj [("number", J.f q)])
        | none => some (J.obj [("number", J.null)])
      else if ty = "checkbox" then
        some (J.obj [("checkbox", J.b (truthy v))])
      else
        some (J.obj [("rich_text", J.arr [J.obj [("text", J.obj [("content", J.s (pyStr v))])]])])

/-- `build_properties_from_json(entry, mapping)`. -/
def build_properties_from_json (entry : J) (mapping : List (String × MapSpec)) :
    List (String × J) :=
  condFold Prod.fst
    (fun sp => to_notion_prop sp.2.ty (get_by_path entry sp.2.json)) mapping []

/-- The per-page merge loop of `pull_from_notion`: for each mapped path,
overwrite `current` at that path with the pulled value when it is
non-null. -/
def merge_mapped (mapping : List (String × MapSpec)) (data : J)
    (current : List (String × J)) : List (String × J) :=
  mapping.foldl (fun cur sp =>
    match get_by_path data sp.2.json with
    | some v => set_by_path cur sp.2.json v
    | none => cur) current

/-! ### Definitions modelled from the claims' wording (for comparison) -/

/-- Modelled from the claim wording for C5: prefer the formatted location
only when it exists AND is non-empty, otherwise read the raw location. -/
def claimed_build_category_index (category : String) (formatted rawDir : Dir) :
    List IndexEntry :=
  let useFormatted := formatted.present && !formatted.files.isEmpty
  let folder := if useFormatted then formatted else rawDir
  if folder.present then
    folder.files.foldl (fun acc fd =>
      let relpath := category ++ (if useFormatted then "/formatted/" else "/") ++ fd.1
      acc ++ fileEntries category relpath fd.1 fd.2) []
  else []

/-- Modelled from the claim wording for C4: lowercase, then collapse every
maximal run of non-alphanumeric characters (underscores included) to one
underscore. -/
def claimed_id_collapse (s : String) : String :=
  String.mk (collapseRunsAux
    (fun c => !(('a' ≤ c && c ≤ 'z') || ('0' ≤ c && c ≤ '9'))) '_'
    (pyLower s).data false)

/-- Independent right-fold formulation of the id derivation the code
actually performs (for the amended C4): lowercase, keep `[a-z0-9_]`
characters, collapse each maximal run of other characters to one
underscore. -/
def amendedIdStep (c : Char) (st : List Char × Bool) : List Char × Bool :=
  if goodIdChar c then (c :: st.1, false)
  else (if st.2 then st.1 else '_' :: st.1, true)

def amended_id (s : String) : String :=
  String.mk ((pyLower s).data.foldr amendedIdStep ([], false)).1

/-! ### Association-list lemmas -/

theorem alget_setK_self {α β : Type} [DecidableEq α] (l : List (α × β)) (k : α) (v : β) :
    alget (setK l k v) k = some v := by
  induction l with
  | nil => simp [alget, setK]
  | cons p rest ih =>
      by_cases h : p.1 = k
      · simp [alget, setK, h]
      · simp [alget, setK, h, ih]

theorem alget_setK_ne {α β : Type} [DecidableEq α] (l : List (α × β)) (k k' : α) (v : β)
    (h : k' ≠ k) : alget (setK l k' v) k = alget l k := by
  induction l with
  | nil => simp [alget, setK, h]
  | cons p rest ih =>
      by_cases hp : p.1 = k'
      · simp [alget, setK, hp, h, hp ▸ h]
      · simp only [setK, hp, if_false, alget]
        by_cases hk : p.1 = k
        · simp [hk]
        · simp [hk, ih]

theorem alget_eq_none_iff {α β : Type} [DecidableEq α] (l : List (α × β)) (k : α) :
    alget l k = none ↔ k ∉ l.map Prod.fst := by
  induction l with
  | nil => simp [alget]
  | cons p rest ih =>
      by_cases h : p.1 = k
      · simp [alget, h]
      · simp [alget, h, ih, Ne.symm h]

theorem alget_mem {α β : Type} [DecidableEq α] (l : List (α × β)) (k : α) (v : β)
    (h : alget l k = some v) : (k, v) ∈ l := by
  induction l with
  | nil => simp [alget] at h
  | cons p rest ih =>
      by_cases hp : p.1 = k
      · simp only [alget, hp, if_true, Option.some.injEq] at h
        have hpe : p = (k, v) := Prod.ext hp h
        rw [← hpe]
        exact List.mem_cons_self _ _
      · simp only [alget, hp, if_false] at h
        exact List.mem_cons_of_mem _ (ih h)

theorem alget_append_left {α β : Type} [DecidableEq α] (l l2 : List (α × β)) (k : α) (v : β)
    (h : alget l k = some v) : alget (l ++ l2) k = some v := by
  induction l with
  | nil => simp [alget] at h
  | cons p rest ih =>
      by_cases hp : p.1 = k
      · simp_all [alget]
      · simp_all [alget]

theorem alget_append_none {α β : Type} [DecidableEq α] (l l2 : List (α × β)) (k : α)
    (h : alget l k = none) : alget (l ++ l2) k = alget l2 k := by
  induction l with
  | nil => simp
  | cons p rest ih =>
      by_cases hp : p.1 = k
      · simp [alget, hp] at h
      · simp only [alget, hp, if_false] at h
        simp [alget, hp, ih h]

theorem setK_keys_present {α β : Type} [DecidableEq α] (l : List (α × β)) (k : α) (v : β)
    (h : (alget l k).isSome) : (setK l k v).map Prod.fst = l.map Prod.fst := by
  induction l with
  | nil => simp [alget] at h
  | cons p rest ih =>
      by_cases hp : p.1 = k
      · simp [setK, hp]
      · simp only [alget, hp, if_false] at h
        simp [setK, hp, ih h]

/-! ### condFold lemmas -/

theorem condFold_alget_skip {γ : Type} (key : γ → String) (g : γ → Option J)
    (l : List γ) (acc : List (String × J)) (k : String)
    (h : ∀ x ∈ l, key x ≠ k) : alget (condFold key g l acc) k = alget acc k := by
  induction l generalizing acc with
  | nil => simp [condFold]
  | cons x rest ih =>
      have hx : key x ≠ k := h x (by simp)
      have hrest : ∀ y ∈ rest, key y ≠ k := fun y hy => h y (by simp [hy])
      simp only [condFold, List.foldl_cons]
      cases hg : g x with
      | none => exact ih _ hrest
      | some w =>
          have := ih (setK acc (key x) w) hrest
          simp only [condFold] at this
          rw [this, alget_setK_ne _ _ _ _ hx]

theorem condFold_alget_found {γ : Type} (key : γ → String) (g : γ → Option J)
    (l : List γ) (acc : List (String × J)) (k : String) (x : γ)
    (hmem : x ∈ l) (hkey : key x = k) (hnd : (l.map key).Nodup) :
    alget (condFold key g l acc) k =
      (match g x with
       | some w => some w
       | none => alget acc k) := by
  induction l generalizing acc with
  | nil => simp at hmem
  | cons y rest ih =>
      simp only [List.map_cons, List.nodup_cons] at hnd
      rcases List.mem_cons.mp hmem with rfl | hmem2
      · have hrest : ∀ z ∈ rest, key z ≠ k := by
          intro z hz
          intro hcon
          exact hnd.1 (hkey ▸ hcon ▸ List.mem_map_of_mem key hz)
        simp only [condFold, List.foldl_cons]
        cases hg : g x with
        | none =>
            have h2 := condFold_alget_skip key g rest acc k hrest
            simp only [condFold] at h2
            rw [h2]
        | some w =>
            have h2 := condFold_alget_skip key g rest (setK acc (key x) w) k hrest
            simp only [condFold] at h2
            rw [h2, hkey, alget_setK_self]
      · have hyk : key y ≠ k := by
          intro hcon
          exact hnd.1 (hcon ▸ hkey ▸ List.mem_map_of_mem key hmem2)
        simp only [condFold, List.foldl_cons]
        cases hg : g y with
        | none => exact ih acc hmem2 hnd.2
        | some w =>
            have h2 := ih (setK acc (key y) w) hmem2 hnd.2
            simp only [condFold] at h2
            rw [h2]
            cases g x with
            | none => rw [alget_setK_ne _ _ _ _ hyk]
            | some w2 => rfl

/-! ### Crosslink lemmas -/

theorem addPair_keys (acc : List (J × List CatFile)) (p : J × CatFile)
    (h : (acc.map Prod.fst).Nodup) : ((addPair acc p).map Prod.fst).Nodup := by
  unfold addPair
  cases hg : alget acc p.1 with
  | some l =>
      rw [setK_keys_present acc p.1 (l ++ [p.2]) (by simp [hg])]
      exact h
  | none =>
      rw [List.map_append]
      rw [List.nodup_append]
      refine ⟨h, by simp, ?_⟩
      intro a ha hb
      simp only [List.map_cons, List.map_nil, List.mem_singleton] at hb
      subst hb
      exact ((alget_eq_none_iff acc p.1).mp hg) ha

theorem foldl_addPair_keys : ∀ (ps : List (J × CatFile)) (acc : List (J × List CatFile)),
    (acc.map Prod.fst).Nodup → ((ps.foldl addPair acc).map Prod.fst).Nodup := by
  intro ps
  induction ps with
  | nil => intro acc h; exact h
  | cons p rest ih =>
      intro acc h
      exact ih (addPair acc p) (addPair_keys acc p h)

/-- The `{category, file}` records selected for one name. -/
def selName (n : J) (p : J × CatFile) : Option CatFile :=
  if p.1 = n then some p.2 else none

theorem foldl_addPair_alget :
    ∀ (ps : List (J × CatFile)) (acc : List (J × List CatFile)) (n : J),
    (acc.map Prod.fst).Nodup →
    alget (ps.foldl addPair acc) n =
      (match alget acc n with
       | some cur => some (cur ++ ps.filterMap (selName n))
       | none =>
           if ps.filterMap (selName n) = [] then none
           else some (ps.filterMap (selName n))) := by
  intro ps
  induction ps with
  | nil =>
      intro acc n _
      cases h : alget acc n <;> simp [h, List.filterMap_nil]
  | cons p rest ih =>
      intro acc n hnd
      have hnd2 := addPair_keys acc p hnd
      have step := ih (addPair acc p) n hnd2
      simp only [List.foldl_cons] at step ⊢
      rw [step]
      by_cases hpn : p.1 = n
      · have hsel : selName n p = some p.2 := by simp [selName, hpn]
        cases hacc : alget acc n with
        | some cur =>
            have : alget (addPair acc p) n = some (cur ++ [p.2]) := by
              unfold addPair
              rw [hpn, hacc]
              exact alget_setK_self acc n (cur ++ [p.2])
            rw [this]
            simp [List.filterMap_cons, hsel]
        | none =>
            have : alget (addPair acc p) n = some [p.2] := by
              unfold addPair
              rw [hpn, hacc]
              rw [alget_append_none acc _ n hacc]
              simp [alget, hpn]
            rw [this]
            simp [List.filterMap_cons, hsel]
      · have hsel : selName n p = none := by simp [selName, hpn]
        have : alget (addPair acc p) n = alget acc n := by
          unfold addPair
          cases hg : alget acc p.1 with
          | some l => exact alget_setK_ne acc n p.1 (l ++ [p.2]) hpn
          | none =>
              cases hacc : alget acc n with
              | some v => exact alget_append_left acc _ n v hacc
              | none =>
                  rw [alget_append_none acc _ n hacc]
                  simp [alget, hpn]
        rw [this, List.filterMap_cons, hsel]

theorem alget_filter_len :
    ∀ (l : List (J × List CatFile)) (k : J), (l.map Prod.fst).Nodup →
    alget (l.filter fun p => p.2.length > 1) k =
      (match alget l k with
       | some v => if v.length > 1 then some v else none
       | none => none) := by
  intro l
  induction l with
  | nil => intro k _; simp [alget]
  | cons p rest ih =>
      intro k hnd
      simp only [List.map_cons, List.nodup_cons] at hnd
      by_cases hp : p.1 = k
      · have hnotin : alget (rest.filter fun p => p.2.length > 1) k = none := by
          rw [alget_eq_none_iff]
          intro hmem
          apply hnd.1
          rw [hp]
          rcases List.mem_map.mp hmem with ⟨x, hx, hfst⟩
          rcases (List.mem_filter.mp hx) with ⟨hx2, _⟩
          exact hfst ▸ List.mem_map_of_mem Prod.fst hx2
        rw [List.filter_cons]
        by_cases hq : p.2.length > 1
        · simp [alget, hp, hq]
        · simp only [hq, decide_eq_true_eq, if_neg]
          simp [alget, hp, hq, hnotin]
      · rw [List.filter_cons]
        by_cases hq : p.2.length > 1
        · simp only [hq, decide_eq_true_eq, if_pos]
          simp [alget, hp, ih k hnd.2]
        · simp only [hq, decide_eq_true_eq, if_neg]
          simp [alget, hp, ih k hnd.2]

/-- The claim-side description of a name's crosslink records: one
`{category, file}` pair per index entry carrying exactly that name, in
category-iteration order then index order. -/
def crossMatches (idx : String → List IndexEntry) (n : J) : List CatFile :=
  (CATEGORIES.map fun c =>
    ((idx c).filter fun e => e.name = n).map fun e => CatFile.mk c e.file).flatten

theorem filterMap_selName_entries (c : String) (n : J) (es : List IndexEntry) :
    es.filterMap (selName n ∘ fun e => (e.name, CatFile.mk c e.file))
      = (es.filter fun e => e.name = n).map fun e => CatFile.mk c e.file := by
  induction es with
  | nil => rfl
  | cons e rest ih =>
      simp only [List.filterMap_cons, List.filter_cons, Function.comp]
      by_cases he : e.name = n
      · simp only [selName, he, if_true]
        simp only [Function.comp] at ih
        simp [ih, he]
      · simp only [selName, he, if_false]
        simp only [Function.comp] at ih
        simp [ih, he]

theorem foldl_append_filterMap (idx : String → List IndexEntry) (n : J) :
    ∀ (cats : List String) (acc : List (J × CatFile)),
    (cats.foldl (fun acc c => acc ++ (idx c).map fun e => (e.name, CatFile.mk c e.file)) acc).filterMap (selName n)
      = acc.filterMap (selName n) ++
        (cats.map fun c =>
          ((idx c).filter fun e => e.name = n).map fun e => CatFile.mk c e.file).flatten := by
  intro cats
  induction cats with
  | nil => intro acc; simp
  | cons c rest ih =>
      intro acc
      simp only [List.foldl_cons, List.map_cons, List.flatten_cons]
      rw [ih]
      rw [List.filterMap_append]
      rw [List.append_assoc]
      congr 1
      congr 1
      rw [List.filterMap_map]
      exact filterMap_selName_entries c n (idx c)

theorem crosslinkPairs_filterMap (idx : String → List IndexEntry) (n : J) :
    (crosslinkPairs idx).filterMap (selName n) = crossMatches idx n := by
  unfold crosslinkPairs crossMatches
  rw [foldl_append_filterMap idx n CATEGORIES []]
  simp

theorem crosslinksOf_alget (idx : String → List IndexEntry) (n : J) :
    alget (crosslinksOf idx) n =
      (if 2 ≤ (crossMatches idx n).length then some (crossMatches idx n) else none) := by
  unfold crosslinksOf name_to_category
  have hnd := foldl_addPair_keys (crosslinkPairs idx) [] (by simp)
  rw [alget_filter_len _ n hnd]
  rw [foldl_addPair_alget (crosslinkPairs idx) [] n (by simp)]
  simp only [alget]
  rw [crosslinkPairs_filterMap idx n]
  by_cases hms : crossMatches idx n = []
  · simp [hms]
  · simp only [hms, if_false]
    have hlen : (crossMatches idx n).length ≥ 1 := by
      cases h : crossMatches idx n with
      | nil => exact absurd h hms
      | cons a l => simp
    by_cases h2 : 2 ≤ (crossMatches idx n).length
    · have h1 : (crossMatches idx n).length > 1 := by omega
      simp [h1, h2]
    · have h1 : ¬(crossMatches idx n).length > 1 := by omega
      simp [h1, h2]

/-! ### Pull-merge frame lemmas -/

/-- Structural lookup of a dotted path in a local document (describes a
field of the document; no Python-`None` collapsing). -/
def lookupPath : List (String × J) → List String → Option J
  | _, [] => none
  | l, [k] => alget l k
  | l, k :: q :: rest =>
      match alget l k with
      | some (J.obj l2) => lookupPath l2 (q :: rest)
      | _ => none

/-- Neither path is an initial segment of the other. -/
def pathsIndependent (a b : List String) : Bool := !(leadsTo a b) && !(leadsTo b a)

theorem splitCharAux_ne_nil (sep : Char) : ∀ (l : List Char), splitCharAux sep l ≠ [] := by
  intro l
  induction l with
  | nil => simp [splitCharAux]
  | cons c rest ih =>
      simp only [splitCharAux]
      cases h : splitCharAux sep rest with
      | nil => exact absurd h ih
      | cons t ts =>
          by_cases hc : c = sep <;> simp [hc]

theorem splitChar_ne_nil (sep : Char) (s : String) : splitChar sep s ≠ [] := by
  unfold splitChar
  intro h
  exact splitCharAux_ne_nil sep s.data (List.map_eq_nil_iff.mp h)

theorem pathsIndependent_cons (a b : String) (as bs : List String)
    (h : pathsIndependent (a :: as) (b :: bs) = true) :
    a ≠ b ∨ (a = b ∧ as ≠ [] ∧ bs ≠ [] ∧ pathsIndependent as bs = true) := by
  by_cases hab : a = b
  · subst hab
    right
    have hl : leadsTo (a :: as) (a :: bs) = leadsTo as bs := by simp [leadsTo]
    have hr : leadsTo (a :: bs) (a :: as) = leadsTo bs as := by simp [leadsTo]
    unfold pathsIndependent at h ⊢
    rw [hl, hr] at h
    simp only [Bool.and_eq_true, Bool.not_eq_true'] at h
    rcases h with ⟨h1, h2⟩
    refine ⟨rfl, ?_, ?_, ?_⟩
    · intro hnil
      subst hnil
      simp [leadsTo] at h1
    · intro hnil
      subst hnil
      simp [leadsTo] at h2
    · simp [h1, h2]
  · left
    exact hab

theorem lookupPath_fresh :
    ∀ (sp : List String) (v : J) (qp : List String),
    sp ≠ [] → qp ≠ [] → pathsIndependent sp qp = true →
    lookupPath (setPathGo sp [] v) qp = none := by
  intro sp
  induction sp with
  | nil => intro v qp h; exact absurd rfl h
  | cons p sp2 ih =>
      intro v qp _ hqp hind
      cases qp with
      | nil => exact absurd rfl hqp
      | cons k qp2 =>
          rcases pathsIndependent_cons p k sp2 qp2 hind with hne | ⟨heq, hsp2, hqp2, hind2⟩
          · cases sp2 with
            | nil =>
                cases qp2 with
                | nil => simp [setPathGo, lookupPath, setK, alget, hne]
                | cons q3 rest3 => simp [setPathGo, lookupPath, setK, alget, hne]
            | cons q2 rest2 =>
                cases qp2 with
                | nil => simp [setPathGo, lookupPath, setK, alget, hne]
                | cons q3 rest3 => simp [setPathGo, lookupPath, setK, alget, hne]
          · subst heq
            cases sp2 with
            | nil => exact absurd rfl hsp2
            | cons q2 rest2 =>
                cases qp2 with
                | nil => exact absurd rfl hqp2
                | cons q3 rest3 =>
                    have hred : lookupPath (setPathGo (p :: q2 :: rest2) [] v) (p :: q3 :: rest3)
                        = lookupPath (setPathGo (q2 :: rest2) [] v) (q3 :: rest3) := by
                      simp [setPathGo, lookupPath, setK, alget]
                    rw [hred]
                    exact ih v (q3 :: rest3) (by simp) (by simp) hind2

theorem setPathGo_frame :
    ∀ (sp : List String) (cur : List (String × J)) (v : J) (qp : List String),
    sp ≠ [] → qp ≠ [] → pathsIndependent sp qp = true →
    lookupPath (setPathGo sp cur v) qp = lookupPath cur qp := by
  intro sp
  induction sp with
  | nil => intro cur v qp h; exact absurd rfl h
  | cons p sp2 ih =>
      intro cur v qp _ hqp hind
      cases qp with
      | nil => exact absurd rfl hqp
      | cons k qp2 =>
          rcases pathsIndependent_cons p k sp2 qp2 hind with hne | ⟨heq, hsp2, hqp2, hind2⟩
          · cases sp2 with
            | nil =>
                cases qp2 with
                | nil => simp [setPathGo, lookupPath, alget_setK_ne cur k p v hne]
                | cons q3 rest3 =>
                    simp [setPathGo, lookupPath,
                      alget_setK_ne cur k p (v) hne]
            | cons q2 rest2 =>
                cases qp2 with
                | nil =>
                    simp [setPathGo, lookupPath, alget_setK_ne _ k p _ hne]
                | cons q3 rest3 =>
                    simp [setPathGo, lookupPath, alget_setK_ne _ k p _ hne]
          · subst heq
            cases sp2 with
            | nil => exact absurd rfl hsp2
            | cons q2 rest2 =>
                cases qp2 with
                | nil => exact absurd rfl hqp2
                | cons q3 rest3 =>
                    simp only [setPathGo, lookupPath, alget_setK_self]
                    cases hc : alget cur p with
                    | some w =>
                        cases w with
                        | obj l2 =>
                            exact ih l2 v (q3 :: rest3) (by simp) (by simp) hind2
                        | null => exact lookupPath_fresh (q2 :: rest2) v (q3 :: rest3) (by simp) (by simp) hind2
                        | b x => exact lookupPath_fresh (q2 :: rest2) v (q3 :: rest3) (by simp) (by simp) hind2
                        | i x => exact lookupPath_fresh (q2 :: rest2) v (q3 :: rest3) (by simp) (by simp) hind2
                        | f x => exact lookupPath_fresh (q2 :: rest2) v (q3 :: rest3) (by simp) (by simp) hind2
                        | s x => exact lookupPath_fresh (q2 :: rest2) v (q3 :: rest3) (by simp) (by simp) hind2
                        | arr x => exact lookupPath_fresh (q2 :: rest2) v (q3 :: rest3) (by simp) (by simp) hind2
                    | none => exact lookupPath_fresh (q2 :: rest2) v (q3 :: rest3) (by simp) (by simp) hind2

theorem merge_mapped_frame :
    ∀ (mapping : List (String × MapSpec)) (data : J) (cur : List (String × J))
      (qp : List String),
    qp ≠ [] →
    (∀ sp ∈ mapping, pathsIndependent (splitChar '.' sp.2.json) qp = true) →
    lookupPath (merge_mapped mapping data cur) qp = lookupPath cur qp := by
  intro mapping
  induction mapping with
  | nil => intro data cur qp _ _; rfl
  | cons sp rest ih =>
      intro data cur qp hqp hind
      have hstep : lookupPath
          (match get_by_path data sp.2.json with
           | some v => set_by_path cur sp.2.json v
           | none => cur) qp = lookupPath cur qp := by
        cases hg : get_by_path data sp.2.json with
        | none => rfl
        | some v =>
            unfold set_by_path
            exact setPathGo_frame (splitChar '.' sp.2.json) cur v qp
              (splitChar_ne_nil '.' sp.2.json) hqp (hind sp (by simp))
      have htail := ih data
          (match get_by_path data sp.2.json with
           | some v => set_by_path cur sp.2.json v
           | none => cur) qp hqp
          (fun x hx => hind x (by simp [hx]))
      unfold merge_mapped at htail ⊢
      simp only [List.foldl_cons]
      rw [htail, hstep]

/-! ### Synonym-merge lemmas -/

theorem alget_setK_isSome {α β : Type} [DecidableEq α] (l : List (α × β)) (k k' : α) (v : β)
    (h : (alget l k).isSome) : (alget (setK l k' v) k).isSome := by
  by_cases hk : k' = k
  · subst hk
    rw [alget_setK_self]
    rfl
  · rw [alget_setK_ne l k k' v hk]
    exact h

theorem sectionUpdate_isSome (m : List (String × J)) :
    ∀ (t : List (String × String)) (k : String), (alget t k).isSome →
    (alget (m.foldl (fun t kv => setK t (pyLower kv.1) (pyStr kv.2)) t) k).isSome := by
  induction m with
  | nil => intro t k h; exact h
  | cons kv rest ih =>
      intro t k h
      simp only [List.foldl_cons]
      exact ih _ k (alget_setK_isSome t k (pyLower kv.1) (pyStr kv.2) h)

theorem synMergeStep_preserves (merged : SynTable) (sm : String × J) (sect k : String)
    (h : ∃ tbl, alget merged sect = some tbl ∧ (alget tbl k).isSome) :
    ∃ tbl2, alget (synMergeStep merged sm) sect = some tbl2 ∧ (alget tbl2 k).isSome := by
  rcases h with ⟨tbl, htbl, hk⟩
  obtain ⟨nm, v⟩ := sm
  cases v with
  | obj m =>
      by_cases hs : pyLower nm = sect
      · subst hs
        refine ⟨m.foldl (fun t kv => setK t (pyLower kv.1) (pyStr kv.2)) tbl, ?_, ?_⟩
        · simp only [synMergeStep]
          rw [htbl]
          exact alget_setK_self _ _ _
        · exact sectionUpdate_isSome m tbl k hk
      · refine ⟨tbl, ?_, hk⟩
        simp only [synMergeStep]
        rw [alget_setK_ne _ _ _ _ hs]
        exact htbl
  | null => exact ⟨tbl, htbl, hk⟩
  | b x => exact ⟨tbl, htbl, hk⟩
  | i x => exact ⟨tbl, htbl, hk⟩
  | f x => exact ⟨tbl, htbl, hk⟩
  | s x => exact ⟨tbl, htbl, hk⟩
  | arr x => exact ⟨tbl, htbl, hk⟩

theorem load_synonyms_preserves_aux (sect k : String) :
    ∀ (sections : List (String × J)) (merged : SynTable),
    (∃ tbl, alget merged sect = some tbl ∧ (alget tbl k).isSome) →
    ∃ tbl2, alget (sections.foldl synMergeStep merged) sect = some tbl2 ∧
      (alget tbl2 k).isSome := by
  intro sections
  induction sections with
  | nil => intro merged h; exact h
  | cons sm rest ih =>
      intro merged h
      simp only [List.foldl_cons]
      exact ih _ (synMergeStep_preserves merged sm sect k h)

/-- Every key of every default section survives `load_synonyms` (the value
may be overridden). -/
theorem load_synonyms_preserves (defaults : SynTable) (ext : Option J) (sect k : String)
    (h : ∃ tbl, alget defaults sect = some tbl ∧ (alget tbl k).isSome) :
    ∃ tbl2, alget (load_synonyms defaults ext) sect = some tbl2 ∧
      (alget tbl2 k).isSome := by
  unfold load_synonyms
  cases ext with
  | none => exact h
  | some v =>
      cases v with
      | obj sections => exact load_synonyms_preserves_aux sect k sections defaults h
      | null => exact h
      | b x => exact h
      | i x => exact h
      | f x => exact h
      | s x => exact h
      | arr x => exact h

/-! ### Id-derivation equivalence -/

def amendedFold (l : List Char) : List Char × Bool := l.foldr amendedIdStep ([], false)

theorem collapse_eq_amended_aux :
    ∀ (l : List Char),
    (collapseRunsAux (fun c => !goodIdChar c) '_' l false = (amendedFold l).1)
    ∧ (collapseRunsAux (fun c => !goodIdChar c) '_' l true
        = if (amendedFold l).2 then (amendedFold l).1.tail else (amendedFold l).1)
    ∧ ((amendedFold l).2 = true → ∃ t, (amendedFold l).1 = '_' :: t) := by
  intro l
  induction l with
  | nil =>
      refine ⟨rfl, rfl, ?_⟩
      intro h
      simp [amendedFold] at h
  | cons c rest ih =>
      rcases ih with ⟨ih1, ih2, ih3⟩
      have hfold : amendedFold (c :: rest) = amendedIdStep c (amendedFold rest) := by
        simp [amendedFold]
      by_cases hg : goodIdChar c = true
      · have hstep : amendedIdStep c (amendedFold rest) = (c :: (amendedFold rest).1, false) := by
          simp [amendedIdStep, hg]
        have haux1 : collapseRunsAux (fun c => !goodIdChar c) '_' (c :: rest) false
            = c :: collapseRunsAux (fun c => !goodIdChar c) '_' rest false := by
          simp [collapseRunsAux, hg]
        have haux2 : collapseRunsAux (fun c => !goodIdChar c) '_' (c :: rest) true
            = c :: collapseRunsAux (fun c => !goodIdChar c) '_' rest false := by
          simp [collapseRunsAux, hg]
        refine ⟨?_, ?_, ?_⟩
        · rw [haux1, hfold, hstep, ih1]
        · rw [haux2, hfold, hstep, ih1]
          simp
        · rw [hfold, hstep]
          intro h
          simp at h
      · have hgf : goodIdChar c = false := by
          cases h : goodIdChar c
          · rfl
          · exact absurd h hg
        have hstep : amendedIdStep c (amendedFold rest)
            = (if (amendedFold rest).2 then (amendedFold rest).1
               else '_' :: (amendedFold rest).1, true) := by
          simp [amendedIdStep, hgf]
        have haux1 : collapseRunsAux (fun c => !goodIdChar c) '_' (c :: rest) false
            = '_' :: collapseRunsAux (fun c => !goodIdChar c) '_' rest true := by
          simp [collapseRunsAux, hgf]
        have haux2 : collapseRunsAux (fun c => !goodIdChar c) '_' (c :: rest) true
            = collapseRunsAux (fun c => !goodIdChar c) '_' rest true := by
          simp [collapseRunsAux, hgf]
        refine ⟨?_, ?_, ?_⟩
        · rw [haux1, hfold, hstep, ih2]
          cases hF : (amendedFold rest).2
          · simp
          · rcases ih3 hF with ⟨t, ht⟩
            simp [ht]
        · rw [haux2, hfold, hstep, ih2]
          cases hF : (amendedFold rest).2
          · simp
          · rcases ih3 hF with ⟨t, ht⟩
            simp [ht]
        · rw [hfold, hstep]
          intro _
          cases hF : (amendedFold rest).2
          · simp
          · rcases ih3 hF with ⟨t, ht⟩
            simp [ht]

/-- The id regex of the source and the amended description coincide. -/
theorem slug_eq_amended_id (s : String) : slug (pyLower s) = amended_id s := by
  unfold slug amended_id
  congr 1
  rw [(collapse_eq_amended_aux (pyLower s).data).1]
  rfl

/-! ### Remaining support definitions and lemmas -/

/-- A value Python sees as a dict or list. -/
def isContainer : J → Bool
  | J.obj _ => true
  | J.arr _ => true
  | _ => false

theorem to_notion_prop_isSome (ty : String) (o : Option J) :
    (to_notion_prop ty o).isSome = o.isSome := by
  cases o with
  | none => rfl
  | some v =>
      unfold to_notion_prop
      split_ifs
      · rfl
      · rfl
      · rfl
      · cases v <;> rfl
      · cases hpf : pyFloat v <;> simp [hpf]
      · rfl
      · rfl

theorem to_notion_prop_number_fail (v : J) (h : pyFloat v = none) :
    to_notion_prop "number" (some v) = some (J.obj [("number", J.null)]) := by
  unfold to_notion_prop
  simp [h]

theorem jget_normalize_creature_attributes (syn : SynTable) (nm : J)
    (raw context : List (String × J)) :
    jget (normalize_creature syn nm raw context) "attributes"
      = some (if creatureAttributes raw = [] then J.null
              else J.obj (creatureAttributes raw)) := by
  unfold normalize_creature
  simp [jget, alget]

/-! ### Claim theorems -/

/-- C1 (counterexample): the claim predicts
`danger_bucket("extremely high threat") = "High"`, but the code returns a
different bucket for that input: the Extreme keyword set is checked first
and the substring `"extreme"` occurs in `"extremely"`. -/
theorem danger_bucket_extremely_high_not_high :
    danger_bucket (some "extremely high threat") ≠ "High" := by decide

/-- C1 (amended): `danger_bucket("extremely high threat")` returns
`"Extreme"`: keyword sets are tried in the order Extreme, High, Moderate,
Low with case-insensitive substring matching and first match wins, and the
Extreme keyword `"extreme"` substring-matches `"extremely"`. An input
matching a High keyword without an Extreme keyword (e.g. `"very high
threat"`) still buckets as `"High"`. -/
theorem danger_bucket_extremely_high_extreme :
    danger_bucket (some "extremely high threat") = "Extreme"
    ∧ danger_bucket (some "very high threat") = "High"
    ∧ danger_bucket (some "somewhat moderate") = "Moderate"
    ∧ danger_bucket (some "low risk") = "Low"
    ∧ danger_bucket none = "Unknown" := by decide

/-- C2 (code evaluated at the failing input): a top-level key
`"relationship_sister"` yields the relationships map entry keyed
`" sister"` — with a leading space and not trimmed — because the slice
`k[12:]` keeps the underscore (`"relationship_"` has 13 characters) and
`clean_text` runs before the underscore-to-space replacement. The claim
expects the cleaned suffix `"sister"`. -/
theorem relationship_key_keeps_leading_space :
    jget (normalize_character SYNONYMS_characters
        [("name", J.s "A"), ("relationship_sister", J.s "Ally")]
        [("file", J.s "c.json"), ("category", J.s "characters"), ("group", J.null)])
      "relationships" = some (J.obj [(" sister", J.s "Ally")]) := by decide

/-- C3 (counterexample): for the creatures category the claim fails — the
merged table produced by `load_synonyms` starts from the
format_characters defaults (species/realm/court), so the creature-specific
default section `"type"` (e.g. `"ethereal beings" → "Ethereal"`) is absent
from it even though it is among that category's built-in defaults. -/
theorem load_synonyms_drops_creature_defaults :
    alget (load_synonyms SYNONYMS_characters (some (J.obj []))) "type" = none
    ∧ (∃ tbl, alget SYNONYMS_creatures "type" = some tbl
        ∧ alget tbl "ethereal beings" = some "Ethereal") := by
  refine ⟨by decide, ⟨_, rfl, by decide⟩⟩

/-- C3 (amended): `load_synonyms` merges external entries onto the
format_characters module defaults regardless of category; every key of
every character-module default section survives the merge (values may be
overridden) and incoming keys are folded to lowercase. The creature
normalizer still sees its own default tables, not because they are merged,
but because `set_synonyms` rebinds only the format_characters module
global while `normalize_creature` reads the never-rebound
`format_creatures.SYNONYMS`. -/
theorem load_synonyms_amended_preservation :
    (∀ (ext : Option J) (sect k : String),
      (∃ tbl, alget SYNONYMS_characters sect = some tbl ∧ (alget tbl k).isSome) →
      ∃ tbl2, alget (load_synonyms SYNONYMS_characters ext) sect = some tbl2 ∧
        (alget tbl2 k).isSome)
    ∧ (∀ mappings, (creatures_main_synonyms initialModules mappings).creatureSyn
        = SYNONYMS_creatures)
    ∧ (alget (synSection (load_synonyms SYNONYMS_characters
          (some (J.obj [("Species", J.obj [("NEW KEY", J.s "V")])]))) "species") "new key"
        = some "V") := by
  refine ⟨?_, ?_, ?_⟩
  · intro ext sect k h
    exact load_synonyms_preserves SYNONYMS_characters ext sect k h
  · intro mappings
    cases mappings <;> rfl
  · decide

theorem load_synonyms_amended_preservation_witness :
    ∃ tbl2, alget (load_synonyms SYNONYMS_characters (some (J.obj []))) "species"
        = some tbl2 ∧ (alget tbl2 "high fae").isSome :=
  load_synonyms_amended_preservation.1 (some (J.obj [])) "species" "high fae"
    ⟨_, rfl, by decide⟩

/-- C4 (counterexample): for the character name `"x__y"` the code derives
the id `"x__y"` — the regex class `[^a-z0-9_]+` excludes underscores, so an
underscore run is not collapsed — while the claim's description
(non-alphanumeric runs including underscores collapsed to one underscore)
demands `"x_y"`. -/
theorem normalize_character_id_underscores_not_collapsed :
    jget (normalize_character SYNONYMS_characters [("name", J.s "x__y")]
        [("file", J.s "c.json"), ("category", J.s "characters"), ("group", J.null)]) "id"
      = some (J.s "x__y")
    ∧ claimed_id_collapse "x__y" = "x_y"
    ∧ ("x__y" : String) ≠ "x_y" := by decide

/-- C4 (amended): for every character and realm entity, the `id` equals
the entity's (output) `name` lowercased with every maximal run of
characters outside `[a-z0-9_]` collapsed to a single underscore;
underscores pass through unchanged and are not merged with adjacent runs
(`amended_id` states this derivation as an independent right fold). -/
theorem entity_id_amended_derivation :
    (∀ (syn : SynTable) (entry context : List (String × J)),
      ∃ nm, jget (normalize_character syn entry context) "name" = some (J.s nm)
        ∧ jget (normalize_character syn entry context) "id" = some (J.s (amended_id nm)))
    ∧ (∀ (syn : SynTable) (entry context : List (String × J)),
      ∃ nm, jget (normalize_realm syn entry context) "name" = some (J.s nm)
        ∧ jget (normalize_realm syn entry context) "id" = some (J.s (amended_id nm))) := by
  constructor
  · intro syn entry context
    refine ⟨pyOrStr (clean_text (pyGet entry "name")) "Unknown", ?_, ?_⟩
    · unfold normalize_character
      simp only [jget]
      split_ifs with h
      · simp [alget, alget_setK_ne]
      · rw [alget_setK_ne _ _ _ _ (by decide : ("notes" : String) ≠ "name")]
        rw [alget_setK_ne _ _ _ _ (by decide : ("relationships" : String) ≠ "name")]
        simp [alget]
    · rw [← slug_eq_amended_id]
      unfold normalize_character
      simp only [jget]
      split_ifs with h
      · simp [alget, alget_setK_ne]
      · rw [alget_setK_ne _ _ _ _ (by decide : ("notes" : String) ≠ "id")]
        rw [alget_setK_ne _ _ _ _ (by decide : ("relationships" : String) ≠ "id")]
        simp [alget]
  · intro syn entry context
    refine ⟨canonicalize_with_synonyms (pyOrStr (clean_text (pyGet entry "name")) "Unknown")
      (synSection syn "name") true, ?_, ?_⟩
    · unfold normalize_realm
      simp [jget, alget]
    · rw [← slug_eq_amended_id]
      unfold normalize_realm
      simp [jget, alget]

/-- C5 (counterexample): with a formatted directory that exists but holds
no documents and a raw directory holding one named document, the code
indexes nothing — `build_category_index` falls back on `exists()` alone —
while the claim's selection rule (formatted only when it exists and is
non-empty) would index the raw document. -/
theorem build_category_index_ignores_empty_formatted :
    build_category_index "creatures" ⟨true, []⟩
        ⟨true, [("alice.json", J.obj [("name", J.s "Alice")])]⟩ = []
    ∧ claimed_build_category_index "creatures" ⟨true, []⟩
        ⟨true, [("alice.json", J.obj [("name", J.s "Alice")])]⟩
      = [⟨J.s "Alice", "creatures/alice.json", "creatures"⟩]
    ∧ ([] : List IndexEntry) ≠ [⟨J.s "Alice", "creatures/alice.json", "creatures"⟩] := by
  decide

/-- C5 (amended): `build_category_index` reads the formatted location
whenever that directory exists — even when it is empty — and reads the raw
location only when the formatted directory does not exist (then only if
the raw one exists). -/
theorem build_category_index_amended_selection :
    ∀ (category : String) (f r : Dir),
      (f.present = true →
        build_category_index category f r
          = f.files.foldl (fun acc fd =>
              acc ++ fileEntries category (category ++ "/formatted/" ++ fd.1) fd.1 fd.2) [])
      ∧ (f.present = false →
        build_category_index category f r
          = if r.present then
              r.files.foldl (fun acc fd =>
                acc ++ fileEntries category (category ++ "/" ++ fd.1) fd.1 fd.2) []
            else []) := by
  intro category f r
  constructor
  · intro h
    simp [build_category_index, h]
  · intro h
    simp [build_category_index, h]

theorem build_category_index_amended_selection_witness :
    build_category_index "creatures" ⟨true, []⟩
        ⟨true, [("alice.json", J.obj [("name", J.s "Alice")])]⟩ = [] := by
  have h := (build_category_index_amended_selection "creatures" ⟨true, []⟩
      ⟨true, [("alice.json", J.obj [("name", J.s "Alice")])]⟩).1 rfl
  simpa using h

/-- C6: in the master index, a name is in the crosslink table iff at least
2 index entries across the per-category indexes carry exactly that name
(same-category duplicates both count), and its list holds one
`{category, file}` pair per matching entry in category-iteration order
(`crossMatches`); in particular, with exactly one `"Lyra"` entry in
characters and one in plots, `crosslinks["Lyra"]` has exactly those two
records, characters before plots. -/
theorem generate_master_index_crosslink_characterization :
    (∀ (fs : String → Dir × Dir) (n : J),
      alget (generate_master_index fs).crosslinks n =
        (if 2 ≤ (crossMatches (fun c => build_category_index c (fs c).1 (fs c).2) n).length
         then some (crossMatches (fun c => build_category_index c (fs c).1 (fs c).2) n)
         else none))
    ∧ (generate_master_index (fun c =>
        if c = "characters" then
          (⟨true, [("lyra.json", J.obj [("name", J.s "Lyra")])]⟩, ⟨false, []⟩)
        else if c = "plots" then
          (⟨true, [("lyra.json", J.obj [("name", J.s "Lyra")])]⟩, ⟨false, []⟩)
        else (⟨false, []⟩, ⟨false, []⟩))).crosslinks
      = [(J.s "Lyra", [⟨"characters", "characters/formatted/lyra.json"⟩,
                       ⟨"plots", "plots/formatted/lyra.json"⟩])] := by
  constructor
  · intro fs n
    exact crosslinksOf_alget (fun c => build_category_index c (fs c).1 (fs c).2) n
  · decide

/-- C7 (code evaluated at the failing input): the plots normalizer has no
placeholder fallback for `name` — only the `id` falls back to `"plot"` —
so a plots document whose entry key cleans to the empty string produces a
canonical entity with the empty `name`, violating the non-empty-name
invariant the claim states. -/
theorem plots_normalize_empty_name :
    Plots.normalize_file "p.json"
        (J.obj [("plots", J.obj [("", J.obj [("summary", J.s "s")])])])
      = [J.obj [("id", J.s "plot"), ("name", J.s ""), ("arc", J.null),
                ("status", J.null), ("summary", J.s "s"),
                ("source", J.obj [("file", J.s "p.json"), ("category", J.s "plots")])]] := by
  decide

/-- C8 (counterexample): the character normalizer has no attributes bucket
and silently drops an unrecognized dict-valued field: `"equipment"` does
not reach notes (which stays null), no `attributes` key exists, and the
value survives nowhere in the entity. -/
theorem normalize_character_drops_nested_unrecognized :
    jget (normalize_character SYNONYMS_characters
        [("name", J.s "A"), ("equipment", J.obj [("sword", J.s "x")])]
        [("file", J.s "c.json"), ("category", J.s "characters"), ("group", J.null)])
      "equipment" = none
    ∧ jget (normalize_character SYNONYMS_characters
        [("name", J.s "A"), ("equipment", J.obj [("sword", J.s "x")])]
        [("file", J.s "c.json"), ("category", J.s "characters"), ("group", J.null)])
      "attributes" = none
    ∧ jget (normalize_character SYNONYMS_characters
        [("name", J.s "A"), ("equipment", J.obj [("sword", J.s "x")])]
        [("file", J.s "c.json"), ("category", J.s "characters"), ("group", J.null)])
      "notes" = some J.null := by decide

/-- C8 (amended): in the creature normalizer the overflow guarantee holds:
an unrecognized field whose value is a dict or list is preserved verbatim
under `attributes`, and an unrecognized scalar field whose cleaned text is
non-empty is preserved (cleaned) under `attributes`. (The character
normalizer, by contrast, drops unrecognized dict/list fields — see the
counterexample — and scalar fields cleaning to empty are dropped
everywhere.) -/
theorem normalize_creature_overflow_preservation :
    ∀ (nm : J) (raw context : List (String × J)) (k : String) (v : J),
    (raw.map Prod.fst).Nodup → alget raw k = some v →
    recognizedCreature.contains k = false →
    ((isContainer v = true →
        ∃ attrs, jget (normalize_creature SYNONYMS_creatures nm raw context) "attributes"
            = some (J.obj attrs) ∧ alget attrs k = some v)
     ∧ (∀ t, isContainer v = false → clean_text (some v) = some t → t ≠ "" →
        ∃ attrs, jget (normalize_creature SYNONYMS_creatures nm raw context) "attributes"
            = some (J.obj attrs) ∧ alget attrs k = some (J.s t))) := by
  intro nm raw context k v hnd hget hrec
  have hmem := alget_mem raw k v hget
  have hfound := condFold_alget_found Prod.fst creatureAttrStep raw [] k (k, v) hmem rfl hnd
  constructor
  · intro hcont
    have hstep : creatureAttrStep (k, v) = some v := by
      simp only [creatureAttrStep, hrec, Bool.false_eq_true, if_false]
      cases v <;> simp_all [isContainer]
    have hAttr : alget (creatureAttributes raw) k = some v := by
      unfold creatureAttributes
      rw [hfound, hstep]
    have hne : ¬ creatureAttributes raw = [] := by
      intro h0
      rw [h0] at hAttr
      simp [alget] at hAttr
    refine ⟨creatureAttributes raw, ?_, hAttr⟩
    rw [jget_normalize_creature_attributes, if_neg hne]
  · intro t hscal hclean hte
    have hstep : creatureAttrStep (k, v) = some (J.s t) := by
      simp only [creatureAttrStep, hrec, Bool.false_eq_true, if_false]
      cases v with
      | obj l => simp [isContainer] at hscal
      | arr l => simp [isContainer] at hscal
      | null => simp [clean_text] at hclean
      | b x => simp [hclean, hte]
      | i x => simp [hclean, hte]
      | f x => simp [hclean, hte]
      | s x => simp [hclean, hte]
    have hAttr : alget (creatureAttributes raw) k = some (J.s t) := by
      unfold creatureAttributes
      rw [hfound, hstep]
    have hne : ¬ creatureAttributes raw = [] := by
      intro h0
      rw [h0] at hAttr
      simp [alget] at hAttr
    refine ⟨creatureAttributes raw, ?_, hAttr⟩
    rw [jget_normalize_creature_attributes, if_neg hne]

theorem normalize_creature_overflow_preservation_witness :
    ∃ attrs, jget (normalize_creature SYNONYMS_creatures (J.s "Wisp")
        [("description", J.s "a wisp"), ("equipment", J.obj [("sword", J.s "x")])]
        [("file", J.s "cr.json"), ("category", J.s "creatures"), ("group", J.null)])
        "attributes" = some (J.obj attrs)
      ∧ alget attrs "equipment" = some (J.obj [("sword", J.s "x")]) :=
  (normalize_creature_overflow_preservation (J.s "Wisp")
      [("description", J.s "a wisp"), ("equipment", J.obj [("sword", J.s "x")])]
      [("file", J.s "cr.json"), ("category", J.s "creatures"), ("group", J.null)]
      "equipment" (J.obj [("sword", J.s "x")])
      (by decide) (by decide) (by decide)).1 (by decide)

/-- C9: a mapped property appears in the push payload iff the value at its
mapped dotted path is non-null (a null or missing source value is omitted
entirely), the payload is exactly the typed wrapping of the extracted
value, and a number-typed property whose non-null value fails numeric
coercion is sent as an explicit `{"number": null}` rather than raising. -/
theorem build_properties_iff_nonnull :
    ∀ (mapping : List (String × MapSpec)) (entry : J) (np : String) (sp : MapSpec),
    (mapping.map Prod.fst).Nodup → alget mapping np = some sp →
    (alget (build_properties_from_json entry mapping) np
        = to_notion_prop sp.ty (get_by_path entry sp.json))
    ∧ ((alget (build_properties_from_json entry mapping) np).isSome
        = (get_by_path entry sp.json).isSome)
    ∧ (∀ v, sp.ty = "number" → get_by_path entry sp.json = some v → pyFloat v = none →
        alget (build_properties_from_json entry mapping) np
          = some (J.obj [("number", J.null)])) := by
  intro mapping entry np sp hnd hget
  have hmem := alget_mem mapping np sp hget
  have hmain : alget (build_properties_from_json entry mapping) np
      = to_notion_prop sp.ty (get_by_path entry sp.json) := by
    unfold build_properties_from_json
    have h := condFold_alget_found Prod.fst
        (fun sp => to_notion_prop sp.2.ty (get_by_path entry sp.2.json))
        mapping [] np (np, sp) hmem rfl hnd
    rw [h]
    have hb : (fun sp : String × MapSpec =>
        to_notion_prop sp.2.ty (get_by_path entry sp.2.json)) (np, sp)
        = to_notion_prop sp.ty (get_by_path entry sp.json) := rfl
    rw [hb]
    cases hto : to_notion_prop sp.ty (get_by_path entry sp.json) with
    | some w => rfl
    | none => rfl
  refine ⟨hmain, ?_, ?_⟩
  · rw [hmain, to_notion_prop_isSome]
  · intro v hty hv hpf
    rw [hmain, hty, hv]
    exact to_notion_prop_number_fail v hpf

theorem build_properties_iff_nonnull_witness :
    alget (build_properties_from_json
        (J.obj [("name", J.s "A"), ("age", J.s "abc"), ("realm", J.null)])
        [("Name", ⟨"name", "title"⟩), ("Age", ⟨"age", "number"⟩)]) "Age"
      = some (J.obj [("number", J.null)]) :=
  (build_properties_iff_nonnull
      [("Name", ⟨"name", "title"⟩), ("Age", ⟨"age", "number"⟩)]
      (J.obj [("name", J.s "A"), ("age", J.s "abc"), ("realm", J.null)])
      "Age" ⟨"age", "number"⟩ (by decide) (by decide)).2.2
    (J.s "abc") rfl (by decide) (by decide)

/-- C10 (counterexample): with the single mapped path `appearance.height`
and a local document whose `appearance` field is the scalar
`"tall and fair"`, the pull merge replaces that unmapped field with a
nested dict — `set_by_path` overwrites a non-dict intermediate with `{}` —
so a field whose path is not a mapped path does not retain its pre-pull
value. -/
theorem pull_merge_clobbers_unmapped_prefix :
    ([("Height", (⟨"appearance.height", "rich_text"⟩ : MapSpec))].map (fun sp => sp.2.json)
        = ["appearance.height"])
    ∧ lookupPath [("name", J.s "A"), ("appearance", J.s "tall and fair")] ["appearance"]
        = some (J.s "tall and fair")
    ∧ lookupPath (merge_mapped [("Height", ⟨"appearance.height", "rich_text"⟩)]
        (J.obj [("appearance", J.obj [("height", J.s "6ft")])])
        [("name", J.s "A"), ("appearance", J.s "tall and fair")]) ["appearance"]
        = some (J.obj [("height", J.s "6ft")]) := by decide

/-- C10 (amended): during a pull merge only the mapped dotted paths are
written (each only with a non-null pulled value), and every local field
whose path is neither a mapped path, nor a prefix of one (such a prefix
holding a non-dict value is replaced by a nested dict), nor an extension
of one, retains its pre-pull value. -/
theorem pull_merge_frame_amended :
    ∀ (mapping : List (String × MapSpec)) (data : J) (cur : List (String × J))
      (qp : List String),
    qp ≠ [] →
    (∀ sp ∈ mapping, pathsIndependent (splitChar '.' sp.2.json) qp = true) →
    lookupPath (merge_mapped mapping data cur) qp = lookupPath cur qp :=
  merge_mapped_frame

theorem pull_merge_frame_amended_witness :
    lookupPath (merge_mapped [("Height", ⟨"appearance.height", "rich_text"⟩)]
        (J.obj [("appearance", J.obj [("height", J.s "6ft")])])
        [("name", J.s "A"), ("appearance", J.s "tall")]) ["name"]
      = lookupPath [("name", J.s "A"), ("appearance", J.s "tall")] ["name"] :=
  pull_merge_frame_amended [("Height", ⟨"appearance.height", "rich_text"⟩)]
    (J.obj [("appearance", J.obj [("height", J.s "6ft")])])
    [("name", J.s "A"), ("appearance", J.s "tall")] ["name"]
    (by decide) (by decide)

end Lore
